import Mathlib

/-!
# Verification of `bravado_core/spec_flattening.py`

Shallow embedding of the reference-flattening engine of `bravado-core`:
the URI marshaler `_marshal_uri`, the object-type classifier
`_determine_object_type`, the recursive flatten engine `descend` inside
`flattened_spec`, and the collision reporter
`_warn_if_uri_clash_on_same_marshaled_representation`.

Python strings are Lean `String`s, Python dicts are insertion-ordered
association lists, and the mutually recursive `descend` is given an explicit
fuel parameter (one unit per call) so that it is a total Lean function;
running out of fuel is the formal counterpart of non-termination.
-/

namespace SpecFlattening

/-! ## Python string primitives

These model the CPython builtins used by the source (`str.find`,
`str.split(sep, 1)`, `str.replace`, slicing) over `List Char`. -/

/-- Python `s.find(sub)` restricted to a single-character needle: index of the
first occurrence of `c`, or `-1` encoded as `none`. -/
def charFind (c : Char) : List Char → Option Nat
  | [] => none
  | a :: rest => if a = c then some 0 else (charFind c rest).map (· + 1)

/-- Python `c in s` for a single character. -/
def charMem (c : Char) (s : List Char) : Bool := s.contains c

/-- Python `s.split(c, 1)`: the part before the first occurrence of `c` and
the part after it (the whole string and `none` if `c` does not occur). -/
def splitOnce (c : Char) : List Char → List Char × Option (List Char)
  | [] => ([], none)
  | a :: rest =>
    if a = c then ([], some rest)
    else
      let (pre, post) := splitOnce c rest
      (a :: pre, post)

/-- Python `str.replace(old, new)`: non-overlapping leftmost-first
substitution.  The `skip` counter carries the tail of an already-matched
pattern so the recursion is structural.  The source only calls it with
one-character `old` patterns; the empty-pattern corner (never exercised) is
modelled as the identity. -/
def replaceGo (pat repl : List Char) : List Char → Nat → List Char
  | [], _ => []
  | _ :: rest, skip + 1 => replaceGo pat repl rest skip
  | a :: rest, 0 =>
    if pat.isPrefixOf (a :: rest) ∧ pat ≠ [] then
      repl ++ replaceGo pat repl rest (pat.length - 1)
    else
      a :: replaceGo pat repl rest 0

/-- Python `str.replace` on character lists. -/
def replaceL (pat repl : List Char) (s : List Char) : List Char :=
  replaceGo pat repl s 0

/-- Python `str.replace` lifted to `String`. -/
def pyReplace (s pat repl : String) : String :=
  ⟨replaceL pat.data repl.data s.data⟩

/-- Python `s.startswith(pre)` (structural, unlike `String.startsWith`). -/
def pyStartsWith (s pre : String) : Bool := pre.data.isPrefixOf s.data

/-- Python string slicing `s[i:]`. -/
def pyDrop (s : List Char) (i : Nat) : List Char := s.drop i

/-- Python string slicing `s[:i]`. -/
def pyTake (s : List Char) (i : Nat) : List Char := s.take i

/-! ## `urllib.parse`: `ParseResult`, `urlunparse`, `urlparse`

Faithful to CPython's `urllib.parse` (the `six.moves.urllib.parse` imports
of the source resolve to it): `urlunsplit`/`urlunparse` string assembly and
`urlsplit`/`urlparse` parsing, including the `uses_params` list that decides
whether the `params` component is split off the path. -/

/-- `urllib.parse.ParseResult`: a parsed URI with six string components. -/
structure Uri where
  scheme : String
  netloc : String
  path : String
  params : String
  query : String
  fragment : String
deriving DecidableEq

/-- CPython `urllib.parse.urlunsplit((scheme, netloc, url, query, fragment))`. -/
def urlunsplit (scheme netloc url query fragment : String) : String :=
  let url1 :=
    if netloc ≠ "" ∨ (url ≠ "" ∧ (pyTake url.data 2) = "//".data) then
      "//" ++ netloc ++
        (if url ≠ "" ∧ (pyTake url.data 1) ≠ "/".data then "/" ++ url else url)
    else url
  let url2 := if scheme ≠ "" then scheme ++ ":" ++ url1 else url1
  let url3 := if query ≠ "" then url2 ++ "?" ++ query else url2
  if fragment ≠ "" then url3 ++ "#" ++ fragment else url3

/-- CPython `urllib.parse.urlunparse`: folds `params` back into the path
(`path;params`) and delegates to `urlunsplit`. -/
def urlunparse (u : Uri) : String :=
  let url := if u.params ≠ "" then u.path ++ ";" ++ u.params else u.path
  urlunsplit u.scheme u.netloc url u.query u.fragment

/-- CPython `urllib.parse.scheme_chars`. -/
def schemeChars : List Char :=
  "abcdefghijklmnopqrstuvwxyzABCDEFGHIJKLMNOPQRSTUVWXYZ0123456789+-.".data

/-- CPython `urllib.parse._splitnetloc(url, 2)`: the netloc runs up to the
first `/`, `?` or `#` at or after position 2. -/
def splitNetloc (s : List Char) : List Char × List Char :=
  let rest := s.drop 2
  let delim := (rest.findIdx? (fun c => c == '/' || c == '?' || c == '#')).getD rest.length
  (rest.take delim, rest.drop delim)

/-- CPython `urllib.parse.urlsplit(url)` (default empty scheme, fragments
allowed): scheme detection and lowering, netloc, fragment and query split. -/
def urlsplit (url : String) : String × String × String × String × String :=
  let s := url.data
  let (scheme, s) :=
    match charFind ':' s with
    | some i =>
      if 0 < i ∧ (pyTake s i).all (fun c => schemeChars.contains c) then
        (String.mk ((pyTake s i).map Char.toLower), pyDrop s (i + 1))
      else ("", s)
    | none => ("", s)
  let (netloc, s) :=
    if pyTake s 2 = "//".data then splitNetloc s else ([], s)
  let (s, fragment) :=
    match splitOnce '#' s with
    | (pre, some post) => (pre, post)
    | (pre, none) => (pre, [])
  let (s, query) :=
    match splitOnce '?' s with
    | (pre, some post) => (pre, post)
    | (pre, none) => (pre, [])
  (scheme, ⟨netloc⟩, ⟨s⟩, ⟨query⟩, ⟨fragment⟩)

/-- CPython `urllib.parse.uses_params`. -/
def usesParams : List String :=
  ["", "ftp", "hdl", "prospero", "http", "imap", "https", "shttp", "rtsp",
   "rtspu", "sip", "sips", "mms", "sftp", "tel"]

/-- CPython `urllib.parse._splitparams(url)`: split `;params` off the last
path segment. -/
def splitParams (url : String) : String × String :=
  let s := url.data
  let i :=
    if charMem '/' s then
      let lastSlash := s.length - 1 - ((charFind '/' s.reverse).getD 0)
      match charFind ';' (s.drop lastSlash) with
      | some j => some (lastSlash + j)
      | none => none
    else charFind ';' s
  match i with
  | some i => (⟨pyTake s i⟩, ⟨pyDrop s (i + 1)⟩)
  | none => (url, "")

/-- CPython `urllib.parse.urlparse(url)`: `urlsplit` plus the `params`
extraction for schemes in `uses_params`. -/
def urlparse (url : String) : Uri :=
  let (scheme, netloc, path, query, fragment) := urlsplit url
  let (path, params) :=
    if usesParams.contains scheme ∧ charMem ';' path.data then splitParams path
    else (path, "")
  ⟨scheme, netloc, path, params, query, fragment⟩

/-! ## `posixpath`: `dirname`, `normpath`, `join`, `abspath`, `relpath`

`os.path` of the environment the source runs in (POSIX).  `abspath` (and
hence `relpath` on relative arguments) consults the process working
directory, which the embedding threads explicitly as `cwd`. -/

/-- `posixpath.dirname(p)`: everything up to the last `/`, with trailing
slashes stripped unless the head is all slashes. -/
def dirname (p : String) : String :=
  let s := p.data
  let i := s.length - ((charFind '/' s.reverse).getD s.length)
  let head := s.take i
  if head ≠ [] ∧ ¬ (head.all (· == '/')) then
    ⟨(head.reverse.dropWhile (· == '/')).reverse⟩
  else ⟨head⟩

/-- `posixpath.isabs(p)`. -/
def isabs (p : String) : Bool := pyTake p.data 1 = "/".data

/-- `posixpath.join(a, b)` for two components. -/
def pjoin (a b : String) : String :=
  if isabs b then b
  else if a = "" ∨ pyTake a.data.reverse 1 = "/".data then a ++ b
  else a ++ "/" ++ b

/-- `str.split('/')`, accumulator form. -/
def splitSlashAux : List Char → List Char → List (List Char)
  | [], acc => [acc.reverse]
  | a :: rest, acc =>
    if a = '/' then acc.reverse :: splitSlashAux rest []
    else splitSlashAux rest (a :: acc)

/-- Python `s.split('/')`. -/
def splitSlash (s : List Char) : List (List Char) := splitSlashAux s []

/-- `posixpath.normpath(p)`. -/
def normpath (p : String) : String :=
  if p = "" then "." else
  let s := p.data
  let initialSlashes : Nat :=
    if pyTake s 1 = "/".data then
      if pyTake s 2 = "//".data ∧ pyTake s 3 ≠ "///".data then 2 else 1
    else 0
  let comps := splitSlash s
  let newComps := comps.foldl (fun acc comp =>
    if comp = [] ∨ comp = ".".data then acc
    else if comp ≠ "..".data ∨ (initialSlashes = 0 ∧ acc = []) ∨
        (acc ≠ [] ∧ acc.getLast? = some "..".data) then acc ++ [comp]
    else if acc ≠ [] then acc.dropLast
    else acc) []
  let joined : String := ⟨(newComps.intersperse "/".data).flatten⟩
  let path := ⟨List.replicate initialSlashes '/'⟩ ++ joined
  if path = "" then "." else path

/-- `posixpath.abspath(p)` with the working directory made explicit. -/
def abspath (cwd p : String) : String :=
  if isabs p then normpath p else normpath (pjoin cwd p)

/-- Longest common prefix length of two segment lists
(`os.path.commonprefix` on a pair of lists). -/
def commonPrefixLen : List (List Char) → List (List Char) → Nat
  | a :: as, b :: bs => if a = b then commonPrefixLen as bs + 1 else 0
  | _, _ => 0

/-- `posixpath.relpath(path, start)` with explicit working directory.
Raises `ValueError("no path specified")` on an empty `path`, modelled as
`none`. -/
def relpath (cwd p start : String) : Option String :=
  if p = "" then none
  else
    let startList := (splitSlash (abspath cwd start).data).filter (· ≠ [])
    let pathList := (splitSlash (abspath cwd p).data).filter (· ≠ [])
    let i := commonPrefixLen startList pathList
    let relList := List.replicate (startList.length - i) "..".data ++ pathList.drop i
    if relList = [] then some "."
    else some ⟨(relList.intersperse "/".data).flatten⟩

/-! ## The URI marshaler `_marshal_uri` -/

/-- The errors `_marshal_uri` can raise: the explicit
`ValueError('Invalid target: ...')` of the scheme/emptiness check, and the
`ValueError('no path specified')` that `os.path.relpath` raises on an empty
path. -/
inductive MarshalErr where
  | invalidTarget
  | noPathSpecified
deriving DecidableEq

/-- `MARSHAL_REPLACEMENT_PATTERNS`: `/` becomes `..` and `#` becomes `|`
(iterated in dict insertion order). -/
def MARSHAL_REPLACEMENT_PATTERNS : List (String × String) :=
  [("/", ".."), ("#", "|")]

/-- The `for src, dst in iteritems(MARSHAL_REPLACEMENT_PATTERNS)` loop at the
end of `_marshal_uri`. -/
def applyReplacementPatterns (s : String) : String :=
  MARSHAL_REPLACEMENT_PATTERNS.foldl (fun acc p => pyReplace acc p.1 p.2) s

/-- The scheme whitelist `{'file', 'http', 'https'}` of `_marshal_uri`. -/
def allowedSchemes : List String := ["file", "http", "https"]

/-- `_marshal_uri(target_uri, origin_uri)`: serialize the target (defaulting
an empty scheme to `file` when the serialization is non-empty), reject empty
serializations and non-whitelisted schemes, masquerade `file` targets behind
the `lfile` scheme with a path relative to the origin's directory, and apply
the replacement patterns.  `cwd` is the process working directory that
`os.path.relpath` consults for relative arguments. -/
def «_marshal_uri» (cwd : String) (target_uri0 : Uri) (origin_uri : Option Uri) :
    Except MarshalErr String :=
  let mt0 := urlunparse target_uri0
  let target_uri :=
    if mt0 ≠ "" ∧ target_uri0.scheme = "" then { target_uri0 with scheme := "file" }
    else target_uri0
  let marshalled_target :=
    if mt0 ≠ "" ∧ target_uri0.scheme = "" then urlunparse target_uri else mt0
  if marshalled_target = "" ∨ ¬ allowedSchemes.contains target_uri.scheme then
    Except.error MarshalErr.invalidTarget
  else
    match origin_uri with
    | some origin =>
      if target_uri.scheme = "file" then
        let spec_dir := dirname origin.path
        match relpath cwd target_uri.path spec_dir with
        | none => Except.error MarshalErr.noPathSpecified
        | some newPath =>
          Except.ok (applyReplacementPatterns
            (urlunparse { target_uri with scheme := "lfile", path := newPath }))
      else Except.ok (applyReplacementPatterns marshalled_target)
    | none => Except.ok (applyReplacementPatterns marshalled_target)

/-! ## The document model -/

/-- A JSON-like document node (Python dicts are insertion-ordered key/value
lists, numeric leaves are modelled as integers; no claim involves floats). -/
inductive Json where
  | null
  | bool (b : Bool)
  | num (n : Int)
  | str (s : String)
  | arr (items : List Json)
  | obj (entries : List (String × Json))

mutual

/-- Decidable equality on `Json` (the automatic derivation does not handle
the nested `List` occurrences). -/
def Json.decEq : (a b : Json) → Decidable (a = b)
  | .null, .null => isTrue rfl
  | .bool a, .bool b =>
    if h : a = b then isTrue (by rw [h]) else isFalse (by simp [h])
  | .num a, .num b =>
    if h : a = b then isTrue (by rw [h]) else isFalse (by simp [h])
  | .str a, .str b =>
    if h : a = b then isTrue (by rw [h]) else isFalse (by simp [h])
  | .arr xs, .arr ys =>
    match Json.decEqArr xs ys with
    | isTrue h => isTrue (by rw [h])
    | isFalse h => isFalse (by simp [h])
  | .obj xs, .obj ys =>
    match Json.decEqObj xs ys with
    | isTrue h => isTrue (by rw [h])
    | isFalse h => isFalse (by simp [h])
  | .null, .bool _ => isFalse nofun
  | .null, .num _ => isFalse nofun
  | .null, .str _ => isFalse nofun
  | .null, .arr _ => isFalse nofun
  | .null, .obj _ => isFalse nofun
  | .bool _, .null => isFalse nofun
  | .bool _, .num _ => isFalse nofun
  | .bool _, .str _ => isFalse nofun
  | .bool _, .arr _ => isFalse nofun
  | .bool _, .obj _ => isFalse nofun
  | .num _, .null => isFalse nofun
  | .num _, .bool _ => isFalse nofun
  | .num _, .str _ => isFalse nofun
  | .num _, .arr _ => isFalse nofun
  | .num _, .obj _ => isFalse nofun
  | .str _, .null => isFalse nofun
  | .str _, .bool _ => isFalse nofun
  | .str _, .num _ => isFalse nofun
  | .str _, .arr _ => isFalse nofun
  | .str _, .obj _ => isFalse nofun
  | .arr _, .null => isFalse nofun
  | .arr _, .bool _ => isFalse nofun
  | .arr _, .num _ => isFalse nofun
  | .arr _, .str _ => isFalse nofun
  | .arr _, .obj _ => isFalse nofun
  | .obj _, .null => isFalse nofun
  | .obj _, .bool _ => isFalse nofun
  | .obj _, .num _ => isFalse nofun
  | .obj _, .str _ => isFalse nofun
  | .obj _, .arr _ => isFalse nofun
termination_by structural a _ => a

/-- Decidable equality on lists of `Json`. -/
def Json.decEqArr : (a b : List Json) → Decidable (a = b)
  | [], [] => isTrue rfl
  | x :: xs, y :: ys =>
    match Json.decEq x y with
    | isFalse h => isFalse (by simp [h])
    | isTrue h1 =>
      match Json.decEqArr xs ys with
      | isTrue h2 => isTrue (by rw [h1, h2])
      | isFalse h2 => isFalse (by simp [h2])
  | [], _ :: _ => isFalse nofun
  | _ :: _, [] => isFalse nofun
termination_by structural a _ => a

/-- Decidable equality on `Json` object entry lists. -/
def Json.decEqObj : (a b : List (String × Json)) → Decidable (a = b)
  | [], [] => isTrue rfl
  | (k, x) :: xs, (l, y) :: ys =>
    if hk : k = l then
      match Json.decEq x y with
      | isFalse h => isFalse (by simp [h])
      | isTrue h1 =>
        match Json.decEqObj xs ys with
        | isTrue h2 => isTrue (by rw [hk, h1, h2])
        | isFalse h2 => isFalse (by simp [h2])
    else isFalse (by simp [hk])
  | [], _ :: _ => isFalse nofun
  | _ :: _, [] => isFalse nofun
termination_by structural a _ => a

end

instance : DecidableEq Json := Json.decEq

/-- First-match association lookup: Python `d[key]` / `key in d` on a dict. -/
def olookup : List (String × Json) → String → Option Json
  | [], _ => none
  | (k, v) :: rest, key => if k = key then some v else olookup rest key

/-- Python `d[key] = v`: replace in place if present, else append. -/
def osetEntry : List (String × Json) → String → Json → List (String × Json)
  | [], key, v => [(key, v)]
  | (k, w) :: rest, key, v =>
    if k = key then (k, v) :: rest else (k, w) :: osetEntry rest key v

/-- Python `dict(pairs)`: first-occurrence position, last value wins. -/
def pyDictOfPairs (l : List (String × Json)) : List (String × Json) :=
  l.foldl (fun acc kv => osetEntry acc kv.1 kv.2) []

/-- Modelled from the spec: `is_dict_like` from `bravado_core.schema` (a
module of this repository that is not under `src/`); the spec's data model
makes a Mapping one of the four node kinds. -/
def is_dict_like : Json → Bool
  | .obj _ => true
  | _ => false

/-- Modelled from the spec: `is_list_like` from `bravado_core.schema` (not
under `src/`); a Sequence node. -/
def is_list_like : Json → Bool
  | .arr _ => true
  | _ => false

/-- Modelled from the spec: `is_ref` from `bravado_core.schema` (not under
`src/`); a Reference node is a mapping holding the reference key `$ref`
(glossary: "a node that points to another location instead of containing a
value directly"). -/
def is_ref : Json → Bool
  | .obj kvs => (olookup kvs "$ref").isSome
  | _ => false

/-- The target string `value['$ref']` of a reference node (the resolver
requires it to be a string). -/
def refTarget (v : Json) : Option String :=
  match v with
  | .obj kvs =>
    match olookup kvs "$ref" with
    | some (.str s) => some s
    | _ => none
  | _ => none

/-! ## The object type classifier `_determine_object_type` -/

/-- `_TYPE_SCHEMA, _TYPE_PATH_ITEM, _TYPE_PARAMETER, _TYPE_RESPONSE`. -/
inductive ObjectType where
  | schema
  | pathItem
  | parameter
  | response
deriving DecidableEq

/-- `_TYPE_PROPERTY_HOLDER_MAPPING` (insertion order preserved). -/
def _TYPE_PROPERTY_HOLDER_MAPPING : List (ObjectType × String) :=
  [(.parameter, "parameters"), (.response, "responses"), (.schema, "definitions")]

/-- The HTTP verb set of `_determine_object_type`. -/
def http_operations : List String :=
  ["get", "put", "post", "delete", "options", "head", "patch"]

/-- `_determine_object_type(object_dict)`.  The Python function can fall off
the end without a `return` (verb keys present but the remaining keys are
neither empty nor exactly `{'parameters'}`), which yields `None`; that case
is `none` here.  Non-mapping inputs (never produced by valid specs) are also
mapped to `none`. -/
def _determine_object_type (object_dict : Json) : Option ObjectType :=
  match object_dict with
  | .obj kvs =>
    if (olookup kvs "in").isSome ∧ (olookup kvs "name").isSome then
      some .parameter
    else
      let object_keys := (kvs.map Prod.fst).filter (fun k => ¬ pyStartsWith k "x-")
      if object_keys.any (fun k => http_operations.contains k) then
        let remaining_keys := object_keys.filter (fun k => ¬ http_operations.contains k)
        if remaining_keys = [] ∨
            (remaining_keys ≠ [] ∧ remaining_keys.all (fun k => k = "parameters")) then
          some .pathItem
        else
          none
      else
        let response_allowed_keys := ["description", "schema", "headers", "examples"]
        if object_keys.contains "description" ∧
            object_keys.all (fun k => response_allowed_keys.contains k) then
          some .response
        else
          some .schema
  | _ => none

/-- `_TYPE_PROPERTY_HOLDER_MAPPING.get(object_type, 'definitions')`. -/
def typeHolderGet (t : Option ObjectType) : String :=
  match t with
  | some t =>
    match _TYPE_PROPERTY_HOLDER_MAPPING.lookup t with
    | some s => s
    | none => "definitions"
  | none => "definitions"

/-! ## The resolution table (`known_mappings`) -/

/-- One bucket of `known_mappings`: an insertion-ordered dict from parsed
URIs to either the in-progress placeholder (`None` in Python, `none` here)
or a resolved node. -/
abbrev Bucket := List (Uri × Option Json)

/-- Python `uri in mapping` / `mapping[uri]`. -/
def blookup : Bucket → Uri → Option (Option Json)
  | [], _ => none
  | (k, v) :: rest, key => if k = key then some v else blookup rest key

/-- Python `mapping[uri] = v`. -/
def bset : Bucket → Uri → Option Json → Bucket
  | [], key, v => [(key, v)]
  | (k, w) :: rest, key, v =>
    if k = key then (k, v) :: rest else (k, w) :: bset rest key v

/-- `known_mappings`: one dict per value of `_TYPE_PROPERTY_HOLDER_MAPPING`. -/
structure Mappings where
  parameters : Bucket
  responses : Bucket
  definitions : Bucket
deriving DecidableEq

/-- `known_mappings[key]` (unknown keys, which the source never produces,
give the empty dict as `known_mappings.get(key, {})` would). -/
def Mappings.get (m : Mappings) (k : String) : Bucket :=
  if k = "parameters" then m.parameters
  else if k = "responses" then m.responses
  else if k = "definitions" then m.definitions
  else []

/-- `known_mappings[key] = b`. -/
def Mappings.set (m : Mappings) (k : String) (b : Bucket) : Mappings :=
  if k = "parameters" then { m with parameters := b }
  else if k = "responses" then { m with responses := b }
  else if k = "definitions" then { m with definitions := b }
  else m

/-- The initial `known_mappings = {key: {} for key in ...}`. -/
def Mappings.empty : Mappings := ⟨[], [], []⟩

/-! ## The flatten engine `descend` -/

/-- Failure modes of a flatten run: fuel exhaustion (the formal counterpart
of non-termination of the Python recursion), an unresolvable reference
(`RefResolver.resolve` raising), a marshal error, and `dict.update` on a
non-mapping (`AttributeError`). -/
inductive FlattenErr where
  | outOfFuel
  | resolveError
  | marshalError (e : MarshalErr)
  | updateError
deriving DecidableEq

/-- The injected capabilities of the engine: `join scope ref` is the
absolute-URI part of `spec_resolver.resolve` under the current scope (the
`with in_scope(...)` pushes), `fetch uri` the value it dereferences to, and
`marshal` the `functools.partial(marshal_uri_function, origin_uri=...)`
closure. -/
structure FlattenCtx where
  join : String → String → String
  fetch : String → Option Json
  marshal : Uri → Except MarshalErr String

/-- The pointer node `{'$ref': '#/{}/{}'.format(mapping_key, marshal_uri(uri))}`. -/
def refOf (mapping_key marshalled : String) : Json :=
  .obj [("$ref", .str ("#/" ++ mapping_key ++ "/" ++ marshalled))]

mutual

/-- `descend(value)` from `flattened_spec`, with the resolver scope and the
shared `known_mappings` threaded explicitly and one unit of fuel consumed
per call. -/
def descend (ctx : FlattenCtx) : Nat → String → Mappings → Json →
    Except FlattenErr (Json × Mappings)
  | 0, _, _, _ => .error .outOfFuel
  | fuel + 1, scope, km, value =>
    if is_ref value then
      match refTarget value with
      | none => .error .resolveError
      | some r =>
        let uri := ctx.join scope r
        match ctx.fetch uri with
        | none => .error .resolveError
        | some deref_value =>
          match _determine_object_type deref_value with
          | some .pathItem => descend ctx fuel uri km deref_value
          | object_type =>
            let mapping_key := typeHolderGet object_type
            let puri := urlparse uri
            if (blookup (km.get mapping_key) puri).isSome then
              match ctx.marshal puri with
              | .error e => .error (.marshalError e)
              | .ok mk => .ok (refOf mapping_key mk, km)
            else
              let km1 := km.set mapping_key (bset (km.get mapping_key) puri none)
              match descend ctx fuel uri km1 deref_value with
              | .error e => .error e
              | .ok (resolved, km2) =>
                let km3 := km2.set mapping_key
                  (bset (km2.get mapping_key) puri (some resolved))
                match ctx.marshal puri with
                | .error e => .error (.marshalError e)
                | .ok mk => .ok (refOf mapping_key mk, km3)
    else
      match value with
      | .obj kvs =>
        match descendObj ctx fuel scope km kvs with
        | .error e => .error e
        | .ok (kvs2, km2) => .ok (.obj kvs2, km2)
      | .arr xs =>
        match descendArr ctx fuel scope km xs with
        | .error e => .error e
        | .ok (xs2, km2) => .ok (.arr xs2, km2)
      | v => .ok (v, km)
termination_by structural fuel _ _ _ => fuel

/-- The dict comprehension `{key: descend(value=subval) for key, subval in
iteritems(value)}`. -/
def descendObj (ctx : FlattenCtx) : Nat → String → Mappings →
    List (String × Json) → Except FlattenErr (List (String × Json) × Mappings)
  | 0, _, _, _ => .error .outOfFuel
  | _ + 1, _, km, [] => .ok ([], km)
  | fuel + 1, scope, km, (k, v) :: rest =>
    match descend ctx fuel scope km v with
    | .error e => .error e
    | .ok (v2, km2) =>
      match descendObj ctx fuel scope km2 rest with
      | .error e => .error e
      | .ok (rest2, km3) => .ok ((k, v2) :: rest2, km3)
termination_by structural fuel _ _ _ => fuel

/-- The list comprehension `[descend(value=subval) for index, subval in
enumerate(value)]`. -/
def descendArr (ctx : FlattenCtx) : Nat → String → Mappings → List Json →
    Except FlattenErr (List Json × Mappings)
  | 0, _, _, _ => .error .outOfFuel
  | _ + 1, _, km, [] => .ok ([], km)
  | fuel + 1, scope, km, v :: rest =>
    match descend ctx fuel scope km v with
    | .error e => .error e
    | .ok (v2, km2) =>
      match descendArr ctx fuel scope km2 rest with
      | .error e => .error e
      | .ok (rest2, km3) => .ok (v2 :: rest2, km3)
termination_by structural fuel _ _ _ => fuel

end

/-! ## The collision reporter -/

/-- Insert `u` into the group of marshaled key `key` (the
`defaultdict(set).add` of the reporter; dict keys keep insertion order). -/
def groupAdd : List (String × List Uri) → String → Uri → List (String × List Uri)
  | [], key, u => [(key, [u])]
  | (k, g) :: rest, key, u =>
    if k = key then (k, g ++ [u]) :: rest else (k, g) :: groupAdd rest key u

/-- The `for uri in iterkeys(uri_schema_mappings)` grouping loop of the
reporter; `marshal_uri` raising propagates. -/
def marshaledGroups (marshal : Uri → Except MarshalErr String) :
    List Uri → List (String × List Uri) → Except MarshalErr (List (String × List Uri))
  | [], acc => .ok acc
  | u :: rest, acc =>
    match marshal u with
    | .error e => .error e
    | .ok k => marshaledGroups marshal rest (groupAdd acc k u)

/-- Python string comparison `a <= b`: lexicographic by code point. -/
def charsLe : List Char → List Char → Bool
  | [], _ => true
  | _ :: _, [] => false
  | a :: as, b :: bs =>
    if a.val < b.val then true
    else if b.val < a.val then false
    else charsLe as bs

/-- Insertion sort on strings: Python `sorted` (ascending, by code point). -/
def insortString (x : String) : List String → List String
  | [] => [x]
  | y :: ys => if charsLe x.data y.data then x :: y :: ys else y :: insortString x ys

/-- Python `sorted` on a list of strings. -/
def sortStrings : List String → List String
  | [] => []
  | x :: xs => insortString x (sortStrings xs)

/-- The warning text `'{s_uris} clashed to {marshaled}'`. -/
def clashMessage (marshaled : String) (uris : List Uri) : String :=
  String.intercalate ", " (sortStrings (uris.map urlunparse)) ++
    " clashed to " ++ marshaled

/-- `_warn_if_uri_clash_on_same_marshaled_representation`: group the table's
URIs by marshaled representation and emit one warning per group of size > 1
(no warnings at all when the marshaled representations are pairwise
distinct).  The returned list holds the `warnings.warn` messages in emission
order. -/
def _warn_if_uri_clash_on_same_marshaled_representation
    (marshal : Uri → Except MarshalErr String) (uri_keys : List Uri) :
    Except MarshalErr (List String) :=
  match marshaledGroups marshal uri_keys [] with
  | .error e => .error e
  | .ok groups =>
    if groups.length ≠ uri_keys.length then
      .ok (groups.filterMap (fun g =>
        if 1 < g.2.length then some (clashMessage g.1 g.2) else none))
    else .ok []

/-! ## `flattened_spec` (final bucket merge) -/

/-- A finished flatten run: the returned document and the final
`known_mappings` table. -/
structure FlattenOutcome where
  doc : Json
  table : Mappings
deriving DecidableEq

/-- `None` placeholders that survived into the final table would serialize
as JSON `null`. -/
def optToJson : Option Json → Json
  | some j => j
  | none => .null

/-- The dict comprehension `{marshal_uri(uri): value for uri, value in
iteritems(mappings)}` (before the `dict` collapse of duplicate keys). -/
def marshalBucket (marshal : Uri → Except MarshalErr String) :
    Bucket → Except MarshalErr (List (String × Json))
  | [] => .ok []
  | (u, v) :: rest =>
    match marshal u with
    | .error e => .error e
    | .ok k =>
      match marshalBucket marshal rest with
      | .error e => .error e
      | .ok rest2 => .ok ((k, optToJson v) :: rest2)

/-- `resolved_spec.update({name: bucket})`. -/
def objUpdate (doc : Json) (key : String) (v : Json) : Except FlattenErr Json :=
  match doc with
  | .obj kvs => .ok (.obj (osetEntry kvs key v))
  | _ => .error .updateError

/-- One iteration of the final `for mapping_key, mappings in
iteritems(known_mappings)` loop: run the collision reporter, then attach the
bucket if and only if it is non-empty. -/
def mergeOne (marshal : Uri → Except MarshalErr String) (doc : Json)
    (name : String) (bucket : Bucket) : Except FlattenErr Json :=
  match _warn_if_uri_clash_on_same_marshaled_representation marshal
      (bucket.map Prod.fst) with
  | .error e => .error (.marshalError e)
  | .ok _ =>
    if 0 < bucket.length then
      match marshalBucket marshal bucket with
      | .error e => .error (.marshalError e)
      | .ok entries => objUpdate doc name (.obj (pyDictOfPairs entries))
    else .ok doc

/-- The final loop over `known_mappings` (dict insertion order: parameters,
responses, definitions). -/
def mergeMappings (marshal : Uri → Except MarshalErr String) (doc : Json)
    (km : Mappings) : Except FlattenErr Json :=
  match mergeOne marshal doc "parameters" km.parameters with
  | .error e => .error e
  | .ok d1 =>
    match mergeOne marshal d1 "responses" km.responses with
    | .error e => .error e
    | .ok d2 => mergeOne marshal d2 "definitions" km.definitions

/-- `flattened_spec` on the `spec_definitions is None` path (the model
backfill of §4.5 is skipped; it only triggers when a model catalog is
supplied).  `copy.deepcopy` is the identity on pure values; `initScope` is
the resolver's base scope (`spec_url` when the resolver is built inside the
function).  Returns both the document and the final table. -/
def flattened_spec_full (ctx : FlattenCtx) (fuel : Nat) (initScope : String)
    (spec_dict : Json) : Except FlattenErr FlattenOutcome :=
  match descend ctx fuel initScope Mappings.empty spec_dict with
  | .error e => .error e
  | .ok (resolved_spec, km) =>
    match mergeMappings ctx.marshal resolved_spec km with
    | .error e => .error e
    | .ok out => .ok ⟨out, km⟩

/-- The return value of `flattened_spec`. -/
def flattened_spec (ctx : FlattenCtx) (fuel : Nat) (initScope : String)
    (spec_dict : Json) : Except FlattenErr Json :=
  (flattened_spec_full ctx fuel initScope spec_dict).map FlattenOutcome.doc

/-! ## Derived notions used by the verification -/

mutual

/-- Structural size of a document node (used to bound fuel). -/
def sizeJson : Json → Nat
  | .obj kvs => 1 + sizeObj kvs
  | .arr xs => 1 + sizeArr xs
  | _ => 1
termination_by structural j => j

/-- Size of object entries. -/
def sizeObj : List (String × Json) → Nat
  | [] => 1
  | (_, v) :: rest => 1 + sizeJson v + sizeObj rest
termination_by structural l => l

/-- Size of array elements. -/
def sizeArr : List Json → Nat
  | [] => 1
  | v :: rest => 1 + sizeJson v + sizeArr rest
termination_by structural l => l

end

mutual

/-- No node of the document is a reference (`is_ref` is false everywhere). -/
def refFree : Json → Bool
  | .obj kvs => !(olookup kvs "$ref").isSome && refFreeObj kvs
  | .arr xs => refFreeArr xs
  | _ => true
termination_by structural j => j

/-- `refFree` on object entries. -/
def refFreeObj : List (String × Json) → Bool
  | [] => true
  | (_, v) :: rest => refFree v && refFreeObj rest
termination_by structural l => l

/-- `refFree` on array elements. -/
def refFreeArr : List Json → Bool
  | [] => true
  | v :: rest => refFree v && refFreeArr rest
termination_by structural l => l

end

/-- Whether a top-level key is present on a document. -/
def jsonHasKey (j : Json) (k : String) : Bool :=
  match j with
  | .obj kvs => (olookup kvs k).isSome
  | _ => false

/-- Each bucket of the table is a real dict: no duplicate keys. -/
def MappingsNodup (km : Mappings) : Prop :=
  (km.parameters.map Prod.fst).Nodup ∧ (km.responses.map Prod.fst).Nodup ∧
    (km.definitions.map Prod.fst).Nodup

/-- The bucket a location's value is filed under (`_TYPE_PROPERTY_HOLDER_MAPPING
.get(object_type, 'definitions')` applied to the classification of the
fetched value). -/
def bucketOf (ctx : FlattenCtx) (u : String) : String :=
  match ctx.fetch u with
  | some v => typeHolderGet (_determine_object_type v)
  | none => "definitions"

/-- The remaining resolution cost of a location: zero once it is in the
table (or unresolvable), otherwise one call plus the size of its value. -/
def uriWeight (ctx : FlattenCtx) (km : Mappings) (u : String) : Nat :=
  match ctx.fetch u with
  | some v =>
    if (blookup (km.get (bucketOf ctx u)) (urlparse u)).isSome then 0
    else 1 + sizeJson v
  | none => 0

/-- Total remaining resolution cost over a universe of locations. -/
def weightSum (ctx : FlattenCtx) (U : List String) (km : Mappings) : Nat :=
  (U.map (uriWeight ctx km)).sum

/-- The pure grouping underlying the collision reporter when every marshal
call succeeds with key function `mkey`. -/
def groupsOfAux (mkey : Uri → String) : List Uri → List (String × List Uri) →
    List (String × List Uri)
  | [], acc => acc
  | u :: rest, acc => groupsOfAux mkey rest (groupAdd acc (mkey u) u)

/-! ## Concrete instances exercised by the claims -/

/-- The end-to-end example origin `file:///specs/a.json`. -/
def exampleUrl : String := "file:///specs/a.json"

/-- The Pet schema `{type: object}` of the end-to-end example. -/
def examplePet : Json := .obj [("type", .str "object")]

/-- The reference node `{$ref: "#/definitions/Pet"}` of the example. -/
def exampleRefNode : Json := .obj [("$ref", .str "#/definitions/Pet")]

/-- The end-to-end example root document
`{definitions: {Pet: {type: object}, Ref: {$ref: "#/definitions/Pet"}}}`. -/
def exampleDoc : Json :=
  .obj [("definitions", .obj [("Pet", examplePet), ("Ref", exampleRefNode)])]

/-- Modelled from the spec: the injected reference-resolution capability of
§6 (jsonschema's `RefResolver`, an external collaborator specified only at
its interface boundary) for the example document: a same-document fragment
reference resolves to the root location joined with the fragment, and
`#/definitions/Pet` dereferences to the Pet schema.  The marshal capability
is the source's default `_marshal_uri` with the example origin. -/
def exampleCtx : FlattenCtx where
  join := fun _ r => if pyStartsWith r "#" then exampleUrl ++ r else r
  fetch := fun u =>
    if u = "file:///specs/a.json#/definitions/Pet" then some examplePet else none
  marshal := fun u => «_marshal_uri» "/" u (some (urlparse exampleUrl))

/-- What flattening the example actually returns: the `definitions` section
is replaced wholesale by the bucket keyed by the marshaled location. -/
def exampleExpected : Json :=
  .obj [("definitions",
    .obj [("lfile:a.json|..definitions..Pet", examplePet)])]

/-- The example flatten run. -/
def exampleRun : Except FlattenErr Json :=
  flattened_spec exampleCtx 20 exampleUrl exampleDoc

/-- Lookup inside the `definitions` section of a returned document. -/
def defsLookup (j : Json) (k : String) : Option Json :=
  match j with
  | .obj kvs =>
    match olookup kvs "definitions" with
    | some (.obj ds) => olookup ds k
    | _ => none
  | _ => none

/-- A mapping with a verb key (`get`) whose remaining non-extension keys
(`{foo}`) are neither empty nor `{parameters}`. -/
def c2Input : Json := .obj [("get", .obj []), ("foo", .obj [])]

/-- A resolved value classified as a path item that holds a reference back
to its own location `A`. -/
def cyclePathItemValue : Json := .obj [("get", .obj [("$ref", .str "A")])]

/-- The reference node pointing at location `A`. -/
def cycleRefNode : Json := .obj [("$ref", .str "A")]

/-- Resolver for the path-item reference cycle: location `A`'s resolved
value contains a reference back to `A` (modelled from the spec's injected
resolution capability, as for `exampleCtx`). -/
def cycleCtx : FlattenCtx where
  join := fun _ r => r
  fetch := fun u => if u = "A" then some cyclePathItemValue else none
  marshal := fun _ => .ok "K"

/-- Divergence of the engine on the path-item reference cycle: no amount of
fuel lets `descend` finish (the Python original recurses without bound,
hitting `RecursionError`). -/
def NeverTerminatesOnPathItemCycle : Prop :=
  ∀ fuel, descend cycleCtx fuel "A" Mappings.empty cycleRefNode =
    .error .outOfFuel

/-- The table after the example reference has been resolved once: a single
`definitions` entry for the Pet location. -/
def c3Km' : Mappings :=
  ⟨[], [], [(urlparse "file:///specs/a.json#/definitions/Pet", some examplePet)]⟩

/-- A resolved value classified as a path item (a lone `get` verb). -/
def c7PathItem : Json := .obj [("get", .obj [])]

/-- Modelled from the spec: a resolution capability fetching the path item
at location `p1` (the injected collaborator of §6, as for `exampleCtx`). -/
def c7Ctx : FlattenCtx where
  join := fun _ r => r
  fetch := fun u => if u = "p1" then some c7PathItem else none
  marshal := fun _ => .ok "K"

/-- A schema-classified resolved value. -/
def c4Val : Json := .obj []

/-- Modelled from the spec: a resolution capability with the single
location `u1` holding a schema value (as for `exampleCtx`). -/
def c4Ctx : FlattenCtx where
  join := fun _ r => r
  fetch := fun u => if u = "u1" then some c4Val else none
  marshal := fun _ => .ok "K"

/-- A table holding the in-progress placeholder for location `u1`. -/
def c4Km : Mappings := ⟨[], [], [(urlparse "u1", none)]⟩

/-- State-domain growth order: every entry present before is present after. -/
def MonoKm (km km' : Mappings) : Prop :=
  ∀ b p, (blookup (km.get b) p).isSome = true → (blookup (km'.get b) p).isSome = true

/-- Every entry a descent adds is keyed by the parse of a location whose
fetched value is not a path item and lands in the bucket determined by that
value's classification; and buckets stay duplicate-free. -/
def StepOk (ctx : FlattenCtx) (km km' : Mappings) : Prop :=
  (∀ b p, (blookup (km'.get b) p).isSome = true →
    (blookup (km.get b) p).isSome = true ∨
    ∃ u dv, p = urlparse u ∧ ctx.fetch u = some dv ∧
      _determine_object_type dv ≠ some ObjectType.pathItem ∧
      b = typeHolderGet (_determine_object_type dv)) ∧
  (MappingsNodup km → MappingsNodup km')

/-- The claim's defaulting of an empty scheme to the local-file scheme. -/
def defaultedScheme (t : Uri) : String := if t.scheme = "" then "file" else t.scheme

/-- The claim's invalid-URI condition: empty serialization, or a (defaulted)
scheme outside the whitelist. -/
def InvalidTargetCond (t : Uri) : Prop :=
  urlunparse t = "" ∨ ¬ allowedSchemes.contains (defaultedScheme t) = true

/-- The condition under which `os.path.relpath` raises a `ValueError` inside
the marshaler: an origin is present, the (defaulted) scheme is the
local-file scheme, and the target's path is empty. -/
def RelpathErrCond (t : Uri) (o : Option Uri) : Prop :=
  o.isSome = true ∧ defaultedScheme t = "file" ∧ t.path = ""

/-- Decidable equality for `Except` results. -/
instance {ε α : Type} [DecidableEq ε] [DecidableEq α] : DecidableEq (Except ε α)
  | .ok a, .ok b =>
    if h : a = b then isTrue (by rw [h]) else isFalse (by simp [h])
  | .error a, .error b =>
    if h : a = b then isTrue (by rw [h]) else isFalse (by simp [h])
  | .ok _, .error _ => isFalse nofun
  | .error _, .ok _ => isFalse nofun

/-! # Infrastructure lemmas -/

theorem blookup_bset (l : Bucket) (key p : Uri) (v : Option Json) :
    blookup (bset l key v) p = if p = key then some v else blookup l p := by
  induction l with
  | nil =>
    by_cases hp : p = key
    · subst hp; simp [bset, blookup]
    · have h2 : ¬ key = p := fun h => hp h.symm
      simp [bset, blookup, hp, h2]
  | cons hd tl ih =>
    obtain ⟨k0, v0⟩ := hd
    by_cases hk : k0 = key
    · subst hk
      by_cases hp : p = k0
      · subst hp; simp [bset, blookup]
      · have h2 : ¬ k0 = p := fun h => hp h.symm
        simp [bset, blookup, hp, h2]
    · by_cases hp : k0 = p
      · subst hp
        have h2 : ¬ k0 = key := hk
        simp [bset, blookup, hk, h2]
      · have h2 : ¬ p = k0 := fun h => hp h.symm
        simp [bset, blookup, hk, hp, ih]

theorem blookup_isSome_iff_mem (l : Bucket) (p : Uri) :
    (blookup l p).isSome = true ↔ p ∈ l.map Prod.fst := by
  induction l with
  | nil => simp [blookup]
  | cons hd tl ih =>
    obtain ⟨k0, v0⟩ := hd
    by_cases hp : k0 = p
    · subst hp; simp [blookup]
    · have h2 : ¬ p = k0 := fun h => hp h.symm
      simp [blookup, hp, h2, ih]

theorem bset_map_fst_mem (l : Bucket) (key : Uri) (v : Option Json)
    (h : key ∈ l.map Prod.fst) : (bset l key v).map Prod.fst = l.map Prod.fst := by
  induction l with
  | nil => simp at h
  | cons hd tl ih =>
    obtain ⟨k0, v0⟩ := hd
    by_cases hk : k0 = key
    · subst hk; simp [bset]
    · simp only [List.map_cons, List.mem_cons] at h
      rcases h with h | h
      · exact absurd h.symm hk
      · simp [bset, hk, ih h]

theorem bset_map_fst_not_mem (l : Bucket) (key : Uri) (v : Option Json)
    (h : key ∉ l.map Prod.fst) :
    (bset l key v).map Prod.fst = l.map Prod.fst ++ [key] := by
  induction l with
  | nil => simp [bset]
  | cons hd tl ih =>
    obtain ⟨k0, v0⟩ := hd
    simp only [List.map_cons, List.mem_cons] at h
    push_neg at h
    have hk : k0 ≠ key := fun hh => h.1 hh.symm
    simp [bset, hk, ih h.2]

theorem bset_nodup (l : Bucket) (key : Uri) (v : Option Json)
    (h : (l.map Prod.fst).Nodup) : ((bset l key v).map Prod.fst).Nodup := by
  by_cases hm : key ∈ l.map Prod.fst
  · rw [bset_map_fst_mem l key v hm]; exact h
  · rw [bset_map_fst_not_mem l key v hm, List.nodup_append]
    refine ⟨h, List.nodup_singleton key, ?_⟩
    intro a ha hb
    simp only [List.mem_singleton] at hb
    exact hm (hb ▸ ha)

theorem typeHolderGet_cases (t : Option ObjectType) :
    typeHolderGet t = "parameters" ∨ typeHolderGet t = "responses" ∨
      typeHolderGet t = "definitions" := by
  rcases t with _ | t
  · right; right; rfl
  · cases t
    · right; right; rfl
    · right; right; rfl
    · left; rfl
    · right; left; rfl

theorem bucketName_of_typeHolderGet (t : Option ObjectType) :
    typeHolderGet t = "parameters" ∨ typeHolderGet t = "responses" ∨
      typeHolderGet t = "definitions" := typeHolderGet_cases t

theorem Mappings.get_set_self (km : Mappings) (k : String) (b : Bucket)
    (h : k = "parameters" ∨ k = "responses" ∨ k = "definitions") :
    (km.set k b).get k = b := by
  rcases h with h | h | h <;> subst h <;> rfl

theorem Mappings.get_set_ne (km : Mappings) (k k' : String) (b : Bucket)
    (h : k' ≠ k) : (km.set k b).get k' = km.get k' := by
  unfold Mappings.get Mappings.set
  split_ifs <;> simp_all

theorem monoKm_refl (km : Mappings) : MonoKm km km := fun _ _ h => h

theorem monoKm_trans {km1 km2 km3 : Mappings} (h1 : MonoKm km1 km2)
    (h2 : MonoKm km2 km3) : MonoKm km1 km3 := fun b p h => h2 b p (h1 b p h)

/-- Inserting the placeholder grows the state. -/
theorem monoKm_bset (km : Mappings) (mk : String) (puri : Uri) (v : Option Json)
    (hmk : mk = "parameters" ∨ mk = "responses" ∨ mk = "definitions") :
    MonoKm km (km.set mk (bset (km.get mk) puri v)) := by
  intro b p h
  by_cases hb : b = mk
  · subst hb
    rw [Mappings.get_set_self km b _ hmk, blookup_bset]
    split <;> simp_all
  · rw [Mappings.get_set_ne km mk b _ hb]
    exact h

theorem is_ref_of_refTarget {v : Json} {r : String} (h : refTarget v = some r) :
    is_ref v = true := by
  rcases v with _ | _ | _ | _ | _ | kvs <;> simp [refTarget] at h
  rcases holo : olookup kvs "$ref" with _ | w
  · rw [holo] at h; simp at h
  · simp [is_ref, holo]

theorem descend_zero (ctx : FlattenCtx) (scope : String) (km : Mappings) (v : Json) :
    descend ctx 0 scope km v = .error .outOfFuel := rfl

theorem descend_succ_null (ctx : FlattenCtx) (fuel : Nat) (scope : String) (km : Mappings) :
    descend ctx (fuel + 1) scope km .null = .ok (.null, km) := rfl

theorem descend_succ_bool (ctx : FlattenCtx) (fuel : Nat) (scope : String) (km : Mappings)
    (b : Bool) : descend ctx (fuel + 1) scope km (.bool b) = .ok (.bool b, km) := rfl

theorem descend_succ_num (ctx : FlattenCtx) (fuel : Nat) (scope : String) (km : Mappings)
    (n : Int) : descend ctx (fuel + 1) scope km (.num n) = .ok (.num n, km) := rfl

theorem descend_succ_str (ctx : FlattenCtx) (fuel : Nat) (scope : String) (km : Mappings)
    (s : String) : descend ctx (fuel + 1) scope km (.str s) = .ok (.str s, km) := rfl

theorem descend_succ_arr (ctx : FlattenCtx) (fuel : Nat) (scope : String) (km : Mappings)
    (xs : List Json) :
    descend ctx (fuel + 1) scope km (.arr xs) =
      match descendArr ctx fuel scope km xs with
      | .error e => .error e
      | .ok (xs2, km2) => .ok (.arr xs2, km2) := rfl

theorem descend_succ_obj (ctx : FlattenCtx) (fuel : Nat) (scope : String) (km : Mappings)
    (kvs : List (String × Json)) (h : is_ref (Json.obj kvs) = false) :
    descend ctx (fuel + 1) scope km (.obj kvs) =
      match descendObj ctx fuel scope km kvs with
      | .error e => .error e
      | .ok (kvs2, km2) => .ok (.obj kvs2, km2) := by
  simp only [descend, h, Bool.false_eq_true, if_false]

/-- One step of `descend` on a reference whose resolved value is not a path
item: the memoization branch of the source (placeholder insertion, recursive
resolution, pointer production). -/
theorem descend_succ_ref (ctx : FlattenCtx) (fuel : Nat) (scope : String) (km : Mappings)
    (v : Json) (r0 : String) (dv : Json)
    (hrt : refTarget v = some r0)
    (hf : ctx.fetch (ctx.join scope r0) = some dv)
    (hnpi : _determine_object_type dv ≠ some ObjectType.pathItem) :
    descend ctx (fuel + 1) scope km v =
      (if (blookup (km.get (typeHolderGet (_determine_object_type dv)))
            (urlparse (ctx.join scope r0))).isSome then
        match ctx.marshal (urlparse (ctx.join scope r0)) with
        | .error e => .error (.marshalError e)
        | .ok mk => .ok (refOf (typeHolderGet (_determine_object_type dv)) mk, km)
      else
        match descend ctx fuel (ctx.join scope r0)
            (km.set (typeHolderGet (_determine_object_type dv))
              (bset (km.get (typeHolderGet (_determine_object_type dv)))
                (urlparse (ctx.join scope r0)) none)) dv with
        | .error e => .error e
        | .ok (resolved, km2) =>
          match ctx.marshal (urlparse (ctx.join scope r0)) with
          | .error e => .error (.marshalError e)
          | .ok mk =>
            .ok (refOf (typeHolderGet (_determine_object_type dv)) mk,
              km2.set (typeHolderGet (_determine_object_type dv))
                (bset (km2.get (typeHolderGet (_determine_object_type dv)))
                  (urlparse (ctx.join scope r0)) (some resolved)))) := by
  have hisref := is_ref_of_refTarget hrt
  simp only [descend, hisref, if_true, hrt, hf]

/-- One step of `descend` on a reference whose resolved value is a path
item: inlined in place, no table access, no pointer. -/
theorem descend_succ_ref_pathItem (ctx : FlattenCtx) (fuel : Nat) (scope : String)
    (km : Mappings) (v : Json) (r0 : String) (dv : Json)
    (hrt : refTarget v = some r0)
    (hf : ctx.fetch (ctx.join scope r0) = some dv)
    (hpi : _determine_object_type dv = some ObjectType.pathItem) :
    descend ctx (fuel + 1) scope km v = descend ctx fuel (ctx.join scope r0) km dv := by
  have hisref := is_ref_of_refTarget hrt
  simp only [descend, hisref, if_true, hrt, hf, hpi]

theorem descend_succ_ref_badtarget (ctx : FlattenCtx) (fuel : Nat) (scope : String)
    (km : Mappings) (v : Json) (h1 : is_ref v = true) (h2 : refTarget v = none) :
    descend ctx (fuel + 1) scope km v = .error .resolveError := by
  simp only [descend, h1, if_true, h2]

theorem descend_succ_ref_nofetch (ctx : FlattenCtx) (fuel : Nat) (scope : String)
    (km : Mappings) (v : Json) (r0 : String) (h1 : refTarget v = some r0)
    (h2 : ctx.fetch (ctx.join scope r0) = none) :
    descend ctx (fuel + 1) scope km v = .error .resolveError := by
  have hisref := is_ref_of_refTarget h1
  simp only [descend, hisref, if_true, h1, h2]

theorem descendObj_zero (ctx : FlattenCtx) (scope : String) (km : Mappings)
    (kvs : List (String × Json)) :
    descendObj ctx 0 scope km kvs = .error .outOfFuel := rfl

theorem descendObj_succ_nil (ctx : FlattenCtx) (fuel : Nat) (scope : String)
    (km : Mappings) : descendObj ctx (fuel + 1) scope km [] = .ok ([], km) := rfl

theorem descendObj_succ_cons (ctx : FlattenCtx) (fuel : Nat) (scope : String)
    (km : Mappings) (k : String) (v : Json) (rest : List (String × Json)) :
    descendObj ctx (fuel + 1) scope km ((k, v) :: rest) =
      match descend ctx fuel scope km v with
      | .error e => .error e
      | .ok (v2, km2) =>
        match descendObj ctx fuel scope km2 rest with
        | .error e => .error e
        | .ok (rest2, km3) => .ok ((k, v2) :: rest2, km3) := rfl

theorem descendArr_zero (ctx : FlattenCtx) (scope : String) (km : Mappings)
    (xs : List Json) : descendArr ctx 0 scope km xs = .error .outOfFuel := rfl

theorem descendArr_succ_nil (ctx : FlattenCtx) (fuel : Nat) (scope : String)
    (km : Mappings) : descendArr ctx (fuel + 1) scope km [] = .ok ([], km) := rfl

theorem descendArr_succ_cons (ctx : FlattenCtx) (fuel : Nat) (scope : String)
    (km : Mappings) (v : Json) (rest : List Json) :
    descendArr ctx (fuel + 1) scope km (v :: rest) =
      match descend ctx fuel scope km v with
      | .error e => .error e
      | .ok (v2, km2) =>
        match descendArr ctx fuel scope km2 rest with
        | .error e => .error e
        | .ok (rest2, km3) => .ok (v2 :: rest2, km3) := rfl

/-- The state only grows: every table entry present before a descent is
present (with some value) afterwards. -/
theorem descend_mono_all (ctx : FlattenCtx) : ∀ fuel : Nat,
    (∀ scope km v r km', descend ctx fuel scope km v = .ok (r, km') → MonoKm km km') ∧
    (∀ scope km kvs r km', descendObj ctx fuel scope km kvs = .ok (r, km') → MonoKm km km') ∧
    (∀ scope km xs r km', descendArr ctx fuel scope km xs = .ok (r, km') → MonoKm km km') := by
  intro fuel
  induction fuel with
  | zero =>
    refine ⟨?_, ?_, ?_⟩ <;> intro scope km v r km' h
    · rw [descend_zero] at h; simp at h
    · rw [descendObj_zero] at h; simp at h
    · rw [descendArr_zero] at h; simp at h
  | succ g ih =>
    obtain ⟨ihD, ihO, ihA⟩ := ih
    have hD : ∀ scope km v r km',
        descend ctx (g + 1) scope km v = .ok (r, km') → MonoKm km km' := by
      intro scope km v r km' h
      by_cases href : is_ref v = true
      · rcases hrt : refTarget v with _ | r0
        · rw [descend_succ_ref_badtarget ctx g scope km v href hrt] at h; simp at h
        · rcases hf : ctx.fetch (ctx.join scope r0) with _ | dv
          · rw [descend_succ_ref_nofetch ctx g scope km v r0 hrt hf] at h; simp at h
          · by_cases hpi : _determine_object_type dv = some ObjectType.pathItem
            · rw [descend_succ_ref_pathItem ctx g scope km v r0 dv hrt hf hpi] at h
              exact ihD _ _ _ _ _ h
            · rw [descend_succ_ref ctx g scope km v r0 dv hrt hf hpi] at h
              have hmk3 := typeHolderGet_cases (_determine_object_type dv)
              set mkey := typeHolderGet (_determine_object_type dv) with hmkey
              set puri := urlparse (ctx.join scope r0) with hpuri
              split at h
              · split at h
                · simp at h
                · cases h
                  exact monoKm_refl km
              · split at h
                · simp at h
                · rename_i resolved km2 hrec
                  split at h
                  · simp at h
                  · cases h
                    exact monoKm_trans (monoKm_trans
                      (monoKm_bset km mkey puri none hmk3)
                      (ihD _ _ _ _ _ hrec))
                      (monoKm_bset km2 mkey puri (some resolved) hmk3)
      · rw [Bool.not_eq_true] at href
        rcases v with _ | b | n | sv | xs | kvs
        · rw [descend_succ_null] at h
          cases h; exact monoKm_refl km
        · rw [descend_succ_bool] at h
          cases h; exact monoKm_refl km
        · rw [descend_succ_num] at h
          cases h; exact monoKm_refl km
        · rw [descend_succ_str] at h
          cases h; exact monoKm_refl km
        · rw [descend_succ_arr] at h
          split at h
          · simp at h
          · rename_i xs2 km2 ha
            cases h
            exact ihA _ _ _ _ _ ha
        · rw [descend_succ_obj ctx g scope km kvs href] at h
          split at h
          · simp at h
          · rename_i kvs2 km2 ho
            cases h
            exact ihO _ _ _ _ _ ho
    have hO : ∀ scope km kvs r km',
        descendObj ctx (g + 1) scope km kvs = .ok (r, km') → MonoKm km km' := by
      intro scope km kvs r km' h
      rcases kvs with _ | ⟨⟨k, v⟩, rest⟩
      · rw [descendObj_succ_nil] at h
        cases h; exact monoKm_refl km
      · rw [descendObj_succ_cons] at h
        split at h
        · simp at h
        · rename_i v2 km2 hd
          split at h
          · simp at h
          · rename_i rest2 km3 ho
            cases h
            exact monoKm_trans (ihD _ _ _ _ _ hd) (ihO _ _ _ _ _ ho)
    have hA : ∀ scope km xs r km',
        descendArr ctx (g + 1) scope km xs = .ok (r, km') → MonoKm km km' := by
      intro scope km xs r km' h
      rcases xs with _ | ⟨v, rest⟩
      · rw [descendArr_succ_nil] at h
        cases h; exact monoKm_refl km
      · rw [descendArr_succ_cons] at h
        split at h
        · simp at h
        · rename_i v2 km2 hd
          split at h
          · simp at h
          · rename_i rest2 km3 ho
            cases h
            exact monoKm_trans (ihD _ _ _ _ _ hd) (ihA _ _ _ _ _ ho)
    exact ⟨hD, hO, hA⟩

/-- `descend_mono_all`, first component. -/
theorem descend_mono (ctx : FlattenCtx) (fuel : Nat) (scope : String) (km : Mappings)
    (v : Json) (r : Json) (km' : Mappings)
    (h : descend ctx fuel scope km v = .ok (r, km')) : MonoKm km km' :=
  (descend_mono_all ctx fuel).1 scope km v r km' h

theorem stepOk_refl (ctx : FlattenCtx) (km : Mappings) : StepOk ctx km km :=
  ⟨fun _ _ h => Or.inl h, id⟩

theorem stepOk_trans {ctx : FlattenCtx} {km1 km2 km3 : Mappings}
    (h1 : StepOk ctx km1 km2) (h2 : StepOk ctx km2 km3) : StepOk ctx km1 km3 := by
  refine ⟨fun b p h => ?_, fun h => h2.2 (h1.2 h)⟩
  rcases h2.1 b p h with h' | h'
  · exact h1.1 b p h'
  · exact Or.inr h'

/-- `MappingsNodup` transported through `Mappings.get`/`Mappings.set`. -/
theorem mappingsNodup_get {km : Mappings} (h : MappingsNodup km) (b : String) :
    ((km.get b).map Prod.fst).Nodup := by
  unfold Mappings.get
  split_ifs
  · exact h.1
  · exact h.2.1
  · exact h.2.2
  · simp

theorem mappingsNodup_set_bset (km : Mappings) (mkey : String) (puri : Uri)
    (w : Option Json)
    (hmk3 : mkey = "parameters" ∨ mkey = "responses" ∨ mkey = "definitions")
    (h : MappingsNodup km) :
    MappingsNodup (km.set mkey (bset (km.get mkey) puri w)) := by
  have hb := bset_nodup (km.get mkey) puri w (mappingsNodup_get h mkey)
  rcases hmk3 with hm | hm | hm <;> subst hm <;>
    exact ⟨by first | exact hb | exact h.1,
           by first | exact hb | exact h.2.1,
           by first | exact hb | exact h.2.2⟩

/-- The placeholder/overwrite writes of the reference branch are `StepOk`. -/
theorem stepOk_bset (ctx : FlattenCtx) (km : Mappings) (u : String) (dv : Json)
    (w : Option Json)
    (hf : ctx.fetch u = some dv)
    (hnpi : _determine_object_type dv ≠ some ObjectType.pathItem) :
    StepOk ctx km (km.set (typeHolderGet (_determine_object_type dv))
      (bset (km.get (typeHolderGet (_determine_object_type dv))) (urlparse u) w)) := by
  have hmk3 := typeHolderGet_cases (_determine_object_type dv)
  constructor
  · intro b p h
    by_cases hbm : b = typeHolderGet (_determine_object_type dv)
    · subst hbm
      rw [Mappings.get_set_self _ _ _ hmk3, blookup_bset] at h
      by_cases hpp : p = urlparse u
      · exact Or.inr ⟨u, dv, hpp, hf, hnpi, rfl⟩
      · rw [if_neg hpp] at h
        exact Or.inl h
    · rw [Mappings.get_set_ne _ _ _ _ hbm] at h
      exact Or.inl h
  · exact mappingsNodup_set_bset km _ (urlparse u) w hmk3

/-- Each descent step is `StepOk`: new entries are parse-keyed non-path-item
locations in their classification's bucket, and bucket keys stay nodup. -/
theorem descend_stepOk_all (ctx : FlattenCtx) : ∀ fuel : Nat,
    (∀ scope km v r km', descend ctx fuel scope km v = .ok (r, km') → StepOk ctx km km') ∧
    (∀ scope km kvs r km', descendObj ctx fuel scope km kvs = .ok (r, km') → StepOk ctx km km') ∧
    (∀ scope km xs r km', descendArr ctx fuel scope km xs = .ok (r, km') → StepOk ctx km km') := by
  intro fuel
  induction fuel with
  | zero =>
    refine ⟨?_, ?_, ?_⟩ <;> intro scope km v r km' h
    · rw [descend_zero] at h; simp at h
    · rw [descendObj_zero] at h; simp at h
    · rw [descendArr_zero] at h; simp at h
  | succ g ih =>
    obtain ⟨ihD, ihO, ihA⟩ := ih
    have hD : ∀ scope km v r km',
        descend ctx (g + 1) scope km v = .ok (r, km') → StepOk ctx km km' := by
      intro scope km v r km' h
      by_cases href : is_ref v = true
      · rcases hrt : refTarget v with _ | r0
        · rw [descend_succ_ref_badtarget ctx g scope km v href hrt] at h; simp at h
        · rcases hf : ctx.fetch (ctx.join scope r0) with _ | dv
          · rw [descend_succ_ref_nofetch ctx g scope km v r0 hrt hf] at h; simp at h
          · by_cases hpi : _determine_object_type dv = some ObjectType.pathItem
            · rw [descend_succ_ref_pathItem ctx g scope km v r0 dv hrt hf hpi] at h
              exact ihD _ _ _ _ _ h
            · rw [descend_succ_ref ctx g scope km v r0 dv hrt hf hpi] at h
              split at h
              · split at h
                · simp at h
                · cases h
                  exact stepOk_refl ctx km
              · split at h
                · simp at h
                · rename_i resolved km2 hrec
                  split at h
                  · simp at h
                  · cases h
                    exact stepOk_trans (stepOk_trans
                      (stepOk_bset ctx km (ctx.join scope r0) dv none hf hpi)
                      (ihD _ _ _ _ _ hrec))
                      (stepOk_bset ctx km2 (ctx.join scope r0) dv (some resolved) hf hpi)
      · rw [Bool.not_eq_true] at href
        rcases v with _ | b | n | sv | xs | kvs
        · rw [descend_succ_null] at h
          cases h; exact stepOk_refl ctx km
        · rw [descend_succ_bool] at h
          cases h; exact stepOk_refl ctx km
        · rw [descend_succ_num] at h
          cases h; exact stepOk_refl ctx km
        · rw [descend_succ_str] at h
          cases h; exact stepOk_refl ctx km
        · rw [descend_succ_arr] at h
          split at h
          · simp at h
          · rename_i xs2 km2 ha
            cases h
            exact ihA _ _ _ _ _ ha
        · rw [descend_succ_obj ctx g scope km kvs href] at h
          split at h
          · simp at h
          · rename_i kvs2 km2 ho
            cases h
            exact ihO _ _ _ _ _ ho
    have hO : ∀ scope km kvs r km',
        descendObj ctx (g + 1) scope km kvs = .ok (r, km') → StepOk ctx km km' := by
      intro scope km kvs r km' h
      rcases kvs with _ | ⟨⟨k, v⟩, rest⟩
      · rw [descendObj_succ_nil] at h
        cases h; exact stepOk_refl ctx km
      · rw [descendObj_succ_cons] at h
        split at h
        · simp at h
        · rename_i v2 km2 hd
          split at h
          · simp at h
          · rename_i rest2 km3 ho
            cases h
            exact stepOk_trans (ihD _ _ _ _ _ hd) (ihO _ _ _ _ _ ho)
    have hA : ∀ scope km xs r km',
        descendArr ctx (g + 1) scope km xs = .ok (r, km') → StepOk ctx km km' := by
      intro scope km xs r km' h
      rcases xs with _ | ⟨v, rest⟩
      · rw [descendArr_succ_nil] at h
        cases h; exact stepOk_refl ctx km
      · rw [descendArr_succ_cons] at h
        split at h
        · simp at h
        · rename_i v2 km2 hd
          split at h
          · simp at h
          · rename_i rest2 km3 ho
            cases h
            exact stepOk_trans (ihD _ _ _ _ _ hd) (ihA _ _ _ _ _ ho)
    exact ⟨hD, hO, hA⟩

/-- `descend_stepOk_all`, first component. -/
theorem descend_stepOk (ctx : FlattenCtx) (fuel : Nat) (scope : String) (km : Mappings)
    (v : Json) (r : Json) (km' : Mappings)
    (h : descend ctx fuel scope km v = .ok (r, km')) : StepOk ctx km km' :=
  (descend_stepOk_all ctx fuel).1 scope km v r km' h

/-- A reference to a location already in its bucket (placeholder or
resolved) is answered by the canonical pointer with the table unchanged — no
recursion, no re-resolution. -/
theorem descend_ref_skip (ctx : FlattenCtx) (fuel : Nat) (scope : String) (km : Mappings)
    (v : Json) (r0 : String) (dv : Json) (mk : String)
    (hrt : refTarget v = some r0)
    (hf : ctx.fetch (ctx.join scope r0) = some dv)
    (hnpi : _determine_object_type dv ≠ some ObjectType.pathItem)
    (hmem : (blookup (km.get (typeHolderGet (_determine_object_type dv)))
      (urlparse (ctx.join scope r0))).isSome = true)
    (hmar : ctx.marshal (urlparse (ctx.join scope r0)) = .ok mk) :
    descend ctx (fuel + 1) scope km v =
      .ok (refOf (typeHolderGet (_determine_object_type dv)) mk, km) := by
  rw [descend_succ_ref ctx fuel scope km v r0 dv hrt hf hnpi, if_pos hmem, hmar]

/-- A successful non-path-item reference descent returns exactly the
canonical pointer `#/<bucket>/<marshaled key>` and leaves an entry for the
location in its bucket. -/
theorem descend_ref_ok (ctx : FlattenCtx) (fuel : Nat) (scope : String) (km : Mappings)
    (v : Json) (r0 : String) (dv : Json) (res : Json) (km' : Mappings)
    (hrt : refTarget v = some r0)
    (hf : ctx.fetch (ctx.join scope r0) = some dv)
    (hnpi : _determine_object_type dv ≠ some ObjectType.pathItem)
    (h : descend ctx fuel scope km v = .ok (res, km')) :
    ∃ mk, ctx.marshal (urlparse (ctx.join scope r0)) = .ok mk ∧
      res = refOf (typeHolderGet (_determine_object_type dv)) mk ∧
      (blookup (km'.get (typeHolderGet (_determine_object_type dv)))
        (urlparse (ctx.join scope r0))).isSome = true := by
  rcases fuel with _ | g
  · rw [descend_zero] at h; simp at h
  · rw [descend_succ_ref ctx g scope km v r0 dv hrt hf hnpi] at h
    split at h
    · rename_i hmem
      split at h
      · simp at h
      · rename_i mk hmar
        cases h
        exact ⟨mk, hmar, rfl, hmem⟩
    · split at h
      · simp at h
      · rename_i resolved km2 hrec
        split at h
        · simp at h
        · rename_i mk hmar
          cases h
          refine ⟨mk, hmar, rfl, ?_⟩
          rw [Mappings.get_set_self _ _ _ (typeHolderGet_cases _), blookup_bset,
            if_pos rfl]
          rfl

theorem sizeJson_pos (v : Json) : 1 ≤ sizeJson v := by
  cases v <;> simp [sizeJson]

theorem sizeObj_pos (kvs : List (String × Json)) : 1 ≤ sizeObj kvs := by
  cases kvs with
  | nil => simp [sizeObj]
  | cons hd tl => obtain ⟨k, v⟩ := hd; simp [sizeObj]; omega

theorem sizeArr_pos (xs : List Json) : 1 ≤ sizeArr xs := by
  cases xs with
  | nil => simp [sizeArr]
  | cons hd tl => simp [sizeArr]; omega

/-- A document with no reference nodes descends to itself, touching neither
the resolver nor the table, given fuel at least its size. -/
theorem descend_refFree_all (ctx : FlattenCtx) : ∀ fuel : Nat,
    (∀ scope km v, refFree v = true → sizeJson v ≤ fuel →
      descend ctx fuel scope km v = .ok (v, km)) ∧
    (∀ scope km kvs, refFreeObj kvs = true → sizeObj kvs ≤ fuel →
      descendObj ctx fuel scope km kvs = .ok (kvs, km)) ∧
    (∀ scope km xs, refFreeArr xs = true → sizeArr xs ≤ fuel →
      descendArr ctx fuel scope km xs = .ok (xs, km)) := by
  intro fuel
  induction fuel with
  | zero =>
    refine ⟨?_, ?_, ?_⟩ <;> intro scope km v hrf hsz
    · have := sizeJson_pos v; omega
    · have := sizeObj_pos v; omega
    · have := sizeArr_pos v; omega
  | succ g ih =>
    obtain ⟨ihD, ihO, ihA⟩ := ih
    refine ⟨?_, ?_, ?_⟩
    · intro scope km v hrf hsz
      rcases v with _ | b | n | sv | xs | kvs
      · exact descend_succ_null ctx g scope km
      · exact descend_succ_bool ctx g scope km b
      · exact descend_succ_num ctx g scope km n
      · exact descend_succ_str ctx g scope km sv
      · rw [descend_succ_arr,
          ihA scope km xs (by simpa [refFree] using hrf)
            (by have := sizeJson_pos (.arr xs); simp [sizeJson] at hsz; omega)]
      · simp only [refFree, Bool.and_eq_true, Bool.not_eq_true'] at hrf
        rw [descend_succ_obj ctx g scope km kvs (by simp [is_ref, hrf.1]),
          ihO scope km kvs hrf.2 (by simp [sizeJson] at hsz; omega)]
    · intro scope km kvs hrf hsz
      rcases kvs with _ | ⟨⟨k, v⟩, rest⟩
      · exact descendObj_succ_nil ctx g scope km
      · simp only [refFreeObj, Bool.and_eq_true] at hrf
        simp only [sizeObj] at hsz
        have h1 := sizeObj_pos rest
        rw [descendObj_succ_cons]
        simp only [ihD scope km v hrf.1 (by omega),
          ihO scope km rest hrf.2 (by have := sizeJson_pos v; omega)]
    · intro scope km xs hrf hsz
      rcases xs with _ | ⟨v, rest⟩
      · exact descendArr_succ_nil ctx g scope km
      · simp only [refFreeArr, Bool.and_eq_true] at hrf
        simp only [sizeArr] at hsz
        have h1 := sizeArr_pos rest
        rw [descendArr_succ_cons]
        simp only [ihD scope km v hrf.1 (by omega),
          ihA scope km rest hrf.2 (by have := sizeJson_pos v; omega)]

theorem uriWeight_mono (ctx : FlattenCtx) (km km' : Mappings) (u : String)
    (h : MonoKm km km') : uriWeight ctx km' u ≤ uriWeight ctx km u := by
  unfold uriWeight
  rcases hf : ctx.fetch u with _ | v
  · simp
  · simp only
    by_cases hs : (blookup (km'.get (bucketOf ctx u)) (urlparse u)).isSome = true
    · simp [hs]
    · have hs0 : ¬ (blookup (km.get (bucketOf ctx u)) (urlparse u)).isSome = true :=
        fun hh => hs (h _ _ hh)
      rw [if_neg hs, if_neg hs0]

theorem weightSum_mono (ctx : FlattenCtx) (U : List String) (km km' : Mappings)
    (h : MonoKm km km') : weightSum ctx U km' ≤ weightSum ctx U km :=
  List.sum_le_sum fun u _ => uriWeight_mono ctx km km' u h

/-- Inserting the placeholder for a fresh location pays for that location's
value once and for all. -/
theorem weightSum_insert (ctx : FlattenCtx) (U : List String) (km km1 : Mappings)
    (u : String) (dv : Json)
    (hf : ctx.fetch u = some dv) (hmemU : u ∈ U)
    (hunseen : ¬ (blookup (km.get (bucketOf ctx u)) (urlparse u)).isSome = true)
    (hmono : MonoKm km km1)
    (hseen1 : (blookup (km1.get (bucketOf ctx u)) (urlparse u)).isSome = true) :
    weightSum ctx U km1 + (1 + sizeJson dv) ≤ weightSum ctx U km := by
  obtain ⟨l1, l2, rfl⟩ := List.append_of_mem hmemU
  unfold weightSum
  rw [List.map_append, List.map_cons, List.sum_append, List.sum_cons,
    List.map_append, List.map_cons, List.sum_append, List.sum_cons]
  have h1 : (l1.map (uriWeight ctx km1)).sum ≤ (l1.map (uriWeight ctx km)).sum :=
    List.sum_le_sum fun x _ => uriWeight_mono ctx km km1 x hmono
  have h2 : (l2.map (uriWeight ctx km1)).sum ≤ (l2.map (uriWeight ctx km)).sum :=
    List.sum_le_sum fun x _ => uriWeight_mono ctx km km1 x hmono
  have hw1 : uriWeight ctx km1 u = 0 := by
    unfold uriWeight; rw [hf]; simp [hseen1]
  have hw0 : uriWeight ctx km u = 1 + sizeJson dv := by
    unfold uriWeight; rw [hf]; simp [hunseen]
  omega

/-- Termination bound: with fuel covering the document's size plus the total
remaining size of the (finitely many) resolvable locations, the descent
never runs out of fuel — provided no fetched value classifies as a path item
(path-item references recurse without touching the memoization table). -/
theorem descend_budget_all (ctx : FlattenCtx) (U : List String)
    (hU : ∀ u w, ctx.fetch u = some w → u ∈ U)
    (hNP : ∀ u w, ctx.fetch u = some w →
      _determine_object_type w ≠ some ObjectType.pathItem) :
    ∀ fuel : Nat,
    (∀ scope km v, sizeJson v + weightSum ctx U km ≤ fuel →
      descend ctx fuel scope km v ≠ .error .outOfFuel) ∧
    (∀ scope km kvs, sizeObj kvs + weightSum ctx U km ≤ fuel →
      descendObj ctx fuel scope km kvs ≠ .error .outOfFuel) ∧
    (∀ scope km xs, sizeArr xs + weightSum ctx U km ≤ fuel →
      descendArr ctx fuel scope km xs ≠ .error .outOfFuel) := by
  intro fuel
  induction fuel with
  | zero =>
    refine ⟨?_, ?_, ?_⟩ <;> intro scope km v hb
    · have := sizeJson_pos v; omega
    · have := sizeObj_pos v; omega
    · have := sizeArr_pos v; omega
  | succ g ih =>
    obtain ⟨ihD, ihO, ihA⟩ := ih
    refine ⟨?_, ?_, ?_⟩
    · intro scope km v hb
      by_cases href : is_ref v = true
      · rcases hrt : refTarget v with _ | r0
        · rw [descend_succ_ref_badtarget ctx g scope km v href hrt]; simp
        · rcases hf : ctx.fetch (ctx.join scope r0) with _ | dv
          · rw [descend_succ_ref_nofetch ctx g scope km v r0 hrt hf]; simp
          · have hnpi := hNP _ _ hf
            rw [descend_succ_ref ctx g scope km v r0 dv hrt hf hnpi]
            by_cases hmem : (blookup (km.get (typeHolderGet (_determine_object_type dv)))
                (urlparse (ctx.join scope r0))).isSome = true
            · rw [if_pos hmem]
              split <;> simp
            · rw [if_neg hmem]
              have hbk : bucketOf ctx (ctx.join scope r0) =
                  typeHolderGet (_determine_object_type dv) := by
                unfold bucketOf; rw [hf]
              have hmono : MonoKm km (km.set (typeHolderGet (_determine_object_type dv))
                  (bset (km.get (typeHolderGet (_determine_object_type dv)))
                    (urlparse (ctx.join scope r0)) none)) :=
                monoKm_bset km _ _ none (typeHolderGet_cases _)
              have hseen1 : (blookup
                  ((km.set (typeHolderGet (_determine_object_type dv))
                    (bset (km.get (typeHolderGet (_determine_object_type dv)))
                      (urlparse (ctx.join scope r0)) none)).get
                    (typeHolderGet (_determine_object_type dv)))
                  (urlparse (ctx.join scope r0))).isSome = true := by
                rw [Mappings.get_set_self _ _ _ (typeHolderGet_cases _), blookup_bset,
                  if_pos rfl]
                rfl
              have hdrop := weightSum_insert ctx U km
                (km.set (typeHolderGet (_determine_object_type dv))
                  (bset (km.get (typeHolderGet (_determine_object_type dv)))
                    (urlparse (ctx.join scope r0)) none))
                (ctx.join scope r0) dv hf (hU _ _ hf)
                (by rw [hbk]; exact hmem) hmono (by rw [hbk]; exact hseen1)
              have hrec := ihD (ctx.join scope r0)
                (km.set (typeHolderGet (_determine_object_type dv))
                  (bset (km.get (typeHolderGet (_determine_object_type dv)))
                    (urlparse (ctx.join scope r0)) none)) dv
                (by have := sizeJson_pos v; omega)
              split
              · rename_i e hres
                rw [hres] at hrec
                simpa using hrec
              · rename_i resolved km2 hres
                split <;> simp
      · rw [Bool.not_eq_true] at href
        rcases v with _ | b | n | sv | xs | kvs
        · rw [descend_succ_null]; simp
        · rw [descend_succ_bool]; simp
        · rw [descend_succ_num]; simp
        · rw [descend_succ_str]; simp
        · rw [descend_succ_arr]
          simp only [sizeJson] at hb
          have ha := ihA scope km xs (by omega)
          split
          · rename_i e hres
            rw [hres] at ha
            simpa using ha
          · simp
        · rw [descend_succ_obj ctx g scope km kvs href]
          simp only [sizeJson] at hb
          have ho := ihO scope km kvs (by omega)
          split
          · rename_i e hres
            rw [hres] at ho
            simpa using ho
          · simp
    · intro scope km kvs hb
      rcases kvs with _ | ⟨⟨k, v⟩, rest⟩
      · rw [descendObj_succ_nil]; simp
      · rw [descendObj_succ_cons]
        simp only [sizeObj] at hb
        have h1 := sizeObj_pos rest
        have hd := ihD scope km v (by omega)
        split
        · rename_i e hres
          rw [hres] at hd
          simpa using hd
        · rename_i v2 km2 hres
          have hws := weightSum_mono ctx U km km2
            (descend_mono ctx g scope km v v2 km2 hres)
          have ho := ihO scope km2 rest (by have := sizeJson_pos v; omega)
          split
          · rename_i e hres2
            rw [hres2] at ho
            simpa using ho
          · simp
    · intro scope km xs hb
      rcases xs with _ | ⟨v, rest⟩
      · rw [descendArr_succ_nil]; simp
      · rw [descendArr_succ_cons]
        simp only [sizeArr] at hb
        have h1 := sizeArr_pos rest
        have hd := ihD scope km v (by omega)
        split
        · rename_i e hres
          rw [hres] at hd
          simpa using hd
        · rename_i v2 km2 hres
          have hws := weightSum_mono ctx U km km2
            (descend_mono ctx g scope km v v2 km2 hres)
          have ha := ihA scope km2 rest (by have := sizeJson_pos v; omega)
          split
          · rename_i e hres2
            rw [hres2] at ha
            simpa using ha
          · simp

/-- On the path-item reference cycle, `descend` exhausts any amount of fuel:
path items are inlined by recursing without consulting the table, so the
cycle never closes. -/
theorem cycle_diverges_all : ∀ fuel : Nat, ∀ (scope : String) (km : Mappings),
    descend cycleCtx fuel scope km (Json.obj [("$ref", Json.str "A")]) =
      .error .outOfFuel ∧
    descend cycleCtx fuel scope km
      (Json.obj [("get", Json.obj [("$ref", Json.str "A")])]) = .error .outOfFuel ∧
    descendObj cycleCtx fuel scope km [("get", Json.obj [("$ref", Json.str "A")])] =
      .error .outOfFuel := by
  intro fuel
  induction fuel with
  | zero => intro scope km; exact ⟨rfl, rfl, rfl⟩
  | succ g ih =>
    intro scope km
    refine ⟨?_, ?_, ?_⟩
    · rw [descend_succ_ref_pathItem cycleCtx g scope km
        (Json.obj [("$ref", Json.str "A")]) "A"
        (Json.obj [("get", Json.obj [("$ref", Json.str "A")])]) rfl rfl rfl]
      exact (ih (cycleCtx.join scope "A") km).2.1
    · rw [descend_succ_obj cycleCtx g scope km
        [("get", Json.obj [("$ref", Json.str "A")])] rfl]
      rw [(ih scope km).2.2]
    · rw [descendObj_succ_cons]
      rw [(ih scope km).1]

theorem replaceGo_single_cons (c a : Char) (repl rest : List Char) :
    replaceGo [c] repl (a :: rest) 0 =
      if a = c then repl ++ replaceGo [c] repl rest 0
      else a :: replaceGo [c] repl rest 0 := by
  by_cases hac : a = c
  · subst hac
    simp [replaceGo, List.isPrefixOf]
  · have : ¬ (c = a) := fun hh => hac hh.symm
    simp [replaceGo, List.isPrefixOf, hac, this]

theorem mem_replaceGo_single (c : Char) (repl : List Char) (x : Char) :
    ∀ l : List Char, x ∈ replaceGo [c] repl l 0 → x ∈ repl ∨ (x ∈ l ∧ x ≠ c) := by
  intro l
  induction l with
  | nil => intro h; simp [replaceGo] at h
  | cons a rest ih =>
    intro h
    rw [replaceGo_single_cons] at h
    by_cases hac : a = c
    · rw [if_pos hac] at h
      rcases List.mem_append.mp h with h' | h'
      · exact Or.inl h'
      · rcases ih h' with h'' | h''
        · exact Or.inl h''
        · exact Or.inr ⟨List.mem_cons_of_mem _ h''.1, h''.2⟩
    · rw [if_neg hac] at h
      rcases List.mem_cons.mp h with h' | h'
      · subst h'
        exact Or.inr ⟨List.mem_cons_self _ _, hac⟩
      · rcases ih h' with h'' | h''
        · exact Or.inl h''
        · exact Or.inr ⟨List.mem_cons_of_mem _ h''.1, h''.2⟩

/-- The replacement table leaves neither a raw `/` nor a raw `#` in its
output. -/
theorem applyReplacementPatterns_safe (m : String) :
    '/' ∉ (applyReplacementPatterns m).data ∧
    '#' ∉ (applyReplacementPatterns m).data := by
  have hshape : (applyReplacementPatterns m).data =
      replaceGo "#".data "|".data
        (replaceGo "/".data "..".data m.data 0) 0 := rfl
  constructor
  · intro hc
    rw [hshape] at hc
    rcases mem_replaceGo_single '#' "|".data '/' _ hc with h | h
    · exact absurd h (by decide)
    · rcases mem_replaceGo_single '/' "..".data '/' _ h.1 with h2 | h2
      · exact absurd h2 (by decide)
      · exact h2.2 rfl
  · intro hc
    rw [hshape] at hc
    rcases mem_replaceGo_single '#' "|".data '#' _ hc with h | h
    · exact absurd h (by decide)
    · exact h.2 rfl

theorem append_ne_empty_left {a : String} (b : String) (h : a ≠ "") :
    a ++ b ≠ "" := by
  intro hc
  apply h
  have hd : (a ++ b).data = [] := by rw [hc]
  rw [String.data_append] at hd
  exact String.ext (List.append_eq_nil.mp hd).1

theorem urlunsplit_ne_empty (scheme netloc url query fragment : String)
    (h : scheme ≠ "") : urlunsplit scheme netloc url query fragment ≠ "" := by
  unfold urlunsplit
  split_ifs <;>
    first
      | exact append_ne_empty_left _ (append_ne_empty_left _ h)
      | exact append_ne_empty_left _
          (append_ne_empty_left _ (append_ne_empty_left _ h))
      | exact append_ne_empty_left _ (append_ne_empty_left _
          (append_ne_empty_left _ (append_ne_empty_left _ h)))
      | exact append_ne_empty_left _ (append_ne_empty_left _
          (append_ne_empty_left _
            (append_ne_empty_left _ (append_ne_empty_left _ h))))
      | exact append_ne_empty_left _ (append_ne_empty_left _
          (append_ne_empty_left _ (append_ne_empty_left _
            (append_ne_empty_left _ (append_ne_empty_left _ h)))))

theorem urlunparse_ne_empty (u : Uri) (h : u.scheme ≠ "") : urlunparse u ≠ "" := by
  unfold urlunparse
  exact urlunsplit_ne_empty _ _ _ _ _ h

theorem relpath_eq_none_iff (cwd p start : String) :
    relpath cwd p start = none ↔ p = "" := by
  unfold relpath
  split_ifs with h
  · simp [h]
  · simp only [h, iff_false]
    split <;> simp

/-! ## Evaluation lemmas for `_marshal_uri` -/

theorem marshal_eval_empty (cwd : String) (t : Uri) (o : Option Uri)
    (hm : urlunparse t = "") :
    «_marshal_uri» cwd t o = .error .invalidTarget := by
  unfold «_marshal_uri»
  simp [hm]

theorem marshal_eval_defaulted (cwd : String) (t : Uri) (o : Option Uri)
    (hm : urlunparse t ≠ "") (hs : t.scheme = "") :
    «_marshal_uri» cwd t o =
      match o with
      | some origin =>
        match relpath cwd t.path (dirname origin.path) with
        | none => .error .noPathSpecified
        | some np =>
          .ok (applyReplacementPatterns
            (urlunparse { t with scheme := "lfile", path := np }))
      | none =>
        .ok (applyReplacementPatterns (urlunparse { t with scheme := "file" })) := by
  have hne : urlunparse { t with scheme := "file" } ≠ "" :=
    urlunparse_ne_empty _ (by simp)
  unfold «_marshal_uri»
  rcases o with _ | origin
  · simp [hm, hs, hne, allowedSchemes]
  · simp [hm, hs, hne, allowedSchemes]

theorem marshal_eval_badscheme (cwd : String) (t : Uri) (o : Option Uri)
    (hm : urlunparse t ≠ "") (hs : t.scheme ≠ "")
    (hc : ¬ allowedSchemes.contains t.scheme = true) :
    «_marshal_uri» cwd t o = .error .invalidTarget := by
  have hc2 : t.scheme ∉ allowedSchemes := by simpa using hc
  unfold «_marshal_uri»
  simp [hm, hs, hc2]

theorem marshal_eval_file (cwd : String) (t : Uri) (o : Option Uri)
    (hm : urlunparse t ≠ "") (hs : t.scheme = "file") :
    «_marshal_uri» cwd t o =
      match o with
      | some origin =>
        match relpath cwd t.path (dirname origin.path) with
        | none => .error .noPathSpecified
        | some np =>
          .ok (applyReplacementPatterns
            (urlunparse { t with scheme := "lfile", path := np }))
      | none => .ok (applyReplacementPatterns (urlunparse t)) := by
  unfold «_marshal_uri»
  rcases o with _ | origin
  · simp [hm, hs, allowedSchemes]
  · simp [hm, hs, allowedSchemes]

theorem marshal_eval_otherscheme (cwd : String) (t : Uri) (o : Option Uri)
    (hm : urlunparse t ≠ "") (hs : t.scheme ≠ "") (hfile : t.scheme ≠ "file")
    (hc : allowedSchemes.contains t.scheme = true) :
    «_marshal_uri» cwd t o = .ok (applyReplacementPatterns (urlunparse t)) := by
  have hc2 : t.scheme ∈ allowedSchemes := by simpa using hc
  unfold «_marshal_uri»
  rcases o with _ | origin
  · simp [hm, hs, hc2]
  · simp [hm, hs, hfile, hc2]

/-- Complete error characterization of `_marshal_uri`: the invalid-target
`ValueError` fires exactly under `InvalidTargetCond`; otherwise the
`relpath` no-path `ValueError` fires exactly under `RelpathErrCond`; every
other input yields a string. -/
theorem marshal_error_trichotomy (cwd : String) (t : Uri) (o : Option Uri) :
    ((«_marshal_uri» cwd t o = .error .invalidTarget) ↔ InvalidTargetCond t) ∧
    ((«_marshal_uri» cwd t o = .error .noPathSpecified) ↔
      (¬ InvalidTargetCond t ∧ RelpathErrCond t o)) ∧
    ((«_marshal_uri» cwd t o).isOk = true ↔
      (¬ InvalidTargetCond t ∧ ¬ RelpathErrCond t o)) := by
  by_cases hm : urlunparse t = ""
  · rw [marshal_eval_empty cwd t o hm]
    have hitc : InvalidTargetCond t := Or.inl hm
    exact ⟨iff_of_true rfl hitc,
      iff_of_false (by simp) (fun hh => hh.1 hitc),
      iff_of_false (by simp [Except.isOk, Except.toBool]) (fun hh => hh.1 hitc)⟩
  · by_cases hs0 : t.scheme = ""
    · have hdef : defaultedScheme t = "file" := by simp [defaultedScheme, hs0]
      have hitc : ¬ InvalidTargetCond t := by
        intro hh
        rcases hh with hh | hh
        · exact hm hh
        · rw [hdef] at hh; exact hh (by decide)
      rw [marshal_eval_defaulted cwd t o hm hs0]
      rcases o with _ | origin
      · have hrpc : ¬ RelpathErrCond t none := by simp [RelpathErrCond]
        exact ⟨iff_of_false (by simp) hitc,
          iff_of_false (by simp) (fun hh => hrpc hh.2),
          iff_of_true (by simp [Except.isOk, Except.toBool]) ⟨hitc, hrpc⟩⟩
      · rcases hre : relpath cwd t.path (dirname origin.path) with _ | np
        · have hpath : t.path = "" := (relpath_eq_none_iff _ _ _).mp hre
          have hrpc : RelpathErrCond t (some origin) := ⟨by simp, hdef, hpath⟩
          exact ⟨iff_of_false (by simp [hre]) hitc,
            iff_of_true (by simp [hre]) ⟨hitc, hrpc⟩,
            iff_of_false (by simp [hre, Except.isOk, Except.toBool])
              (fun hh => hh.2 hrpc)⟩
        · have hpath : t.path ≠ "" := by
            intro hp
            rw [(relpath_eq_none_iff cwd t.path (dirname origin.path)).mpr hp] at hre
            cases hre
          have hrpc : ¬ RelpathErrCond t (some origin) := fun hh => hpath hh.2.2
          exact ⟨iff_of_false (by simp [hre]) hitc,
            iff_of_false (by simp [hre]) (fun hh => hrpc hh.2),
            iff_of_true (by simp [hre, Except.isOk, Except.toBool]) ⟨hitc, hrpc⟩⟩
    · have hdef : defaultedScheme t = t.scheme := by simp [defaultedScheme, hs0]
      by_cases hc : allowedSchemes.contains t.scheme = true
      · have hitc : ¬ InvalidTargetCond t := by
          intro hh
          rcases hh with hh | hh
          · exact hm hh
          · rw [hdef] at hh; exact hh hc
        by_cases hfile : t.scheme = "file"
        · rw [marshal_eval_file cwd t o hm hfile]
          rcases o with _ | origin
          · have hrpc : ¬ RelpathErrCond t none := by simp [RelpathErrCond]
            exact ⟨iff_of_false (by simp) hitc,
              iff_of_false (by simp) (fun hh => hrpc hh.2),
              iff_of_true (by simp [Except.isOk, Except.toBool]) ⟨hitc, hrpc⟩⟩
          · rcases hre : relpath cwd t.path (dirname origin.path) with _ | np
            · have hpath : t.path = "" := (relpath_eq_none_iff _ _ _).mp hre
              have hrpc : RelpathErrCond t (some origin) :=
                ⟨by simp, by rw [hdef]; exact hfile, hpath⟩
              exact ⟨iff_of_false (by simp [hre]) hitc,
                iff_of_true (by simp [hre]) ⟨hitc, hrpc⟩,
                iff_of_false (by simp [hre, Except.isOk, Except.toBool])
                  (fun hh => hh.2 hrpc)⟩
            · have hpath : t.path ≠ "" := by
                intro hp
                rw [(relpath_eq_none_iff cwd t.path (dirname origin.path)).mpr hp] at hre
                cases hre
              have hrpc : ¬ RelpathErrCond t (some origin) := fun hh => hpath hh.2.2
              exact ⟨iff_of_false (by simp [hre]) hitc,
                iff_of_false (by simp [hre]) (fun hh => hrpc hh.2),
                iff_of_true (by simp [hre, Except.isOk, Except.toBool]) ⟨hitc, hrpc⟩⟩
        · rw [marshal_eval_otherscheme cwd t o hm hs0 hfile hc]
          have hrpc : ¬ RelpathErrCond t o := by
            intro hh
            exact hfile (hdef ▸ hh.2.1)
          exact ⟨iff_of_false (by simp) hitc,
            iff_of_false (by simp) (fun hh => hrpc hh.2),
            iff_of_true (by simp [Except.isOk, Except.toBool]) ⟨hitc, hrpc⟩⟩
      · rw [marshal_eval_badscheme cwd t o hm hs0 hc]
        have hitc : InvalidTargetCond t := Or.inr (by rw [hdef]; exact hc)
        exact ⟨iff_of_true rfl hitc,
          iff_of_false (by simp) (fun hh => hh.1 hitc),
          iff_of_false (by simp [Except.isOk, Except.toBool]) (fun hh => hh.1 hitc)⟩

theorem marshal_eval_defaulted_none (cwd : String) (t : Uri)
    (hm : urlunparse t ≠ "") (hs : t.scheme = "") :
    «_marshal_uri» cwd t none =
      .ok (applyReplacementPatterns (urlunparse { t with scheme := "file" })) :=
  marshal_eval_defaulted cwd t none hm hs

theorem marshal_eval_defaulted_some (cwd : String) (t origin : Uri)
    (hm : urlunparse t ≠ "") (hs : t.scheme = "") :
    «_marshal_uri» cwd t (some origin) =
      match relpath cwd t.path (dirname origin.path) with
      | none => .error .noPathSpecified
      | some np =>
        .ok (applyReplacementPatterns
          (urlunparse { t with scheme := "lfile", path := np })) :=
  marshal_eval_defaulted cwd t (some origin) hm hs

theorem marshal_eval_file_none (cwd : String) (t : Uri)
    (hm : urlunparse t ≠ "") (hs : t.scheme = "file") :
    «_marshal_uri» cwd t none =
      .ok (applyReplacementPatterns (urlunparse t)) :=
  marshal_eval_file cwd t none hm hs

theorem marshal_eval_file_some (cwd : String) (t origin : Uri)
    (hm : urlunparse t ≠ "") (hs : t.scheme = "file") :
    «_marshal_uri» cwd t (some origin) =
      match relpath cwd t.path (dirname origin.path) with
      | none => .error .noPathSpecified
      | some np =>
        .ok (applyReplacementPatterns
          (urlunparse { t with scheme := "lfile", path := np })) :=
  marshal_eval_file cwd t (some origin) hm hs

/-- Every string the marshaler returns went through the replacement table. -/
theorem marshal_ok_shape (cwd : String) (t : Uri) (o : Option Uri) (res : String)
    (h : «_marshal_uri» cwd t o = .ok res) :
    ∃ m, res = applyReplacementPatterns m := by
  by_cases hm : urlunparse t = ""
  · rw [marshal_eval_empty cwd t o hm] at h; cases h
  · by_cases hs0 : t.scheme = ""
    · rcases o with _ | origin
      · rw [marshal_eval_defaulted_none cwd t hm hs0] at h
        cases h
        exact ⟨_, rfl⟩
      · rw [marshal_eval_defaulted_some cwd t origin hm hs0] at h
        rcases hre : relpath cwd t.path (dirname origin.path) with _ | np
        · rw [hre] at h
          cases h
        · rw [hre] at h
          cases h
          exact ⟨_, rfl⟩
    · by_cases hc : allowedSchemes.contains t.scheme = true
      · by_cases hfile : t.scheme = "file"
        · rcases o with _ | origin
          · rw [marshal_eval_file_none cwd t hm hfile] at h
            cases h
            exact ⟨_, rfl⟩
          · rw [marshal_eval_file_some cwd t origin hm hfile] at h
            rcases hre : relpath cwd t.path (dirname origin.path) with _ | np
            · rw [hre] at h
              cases h
            · rw [hre] at h
              cases h
              exact ⟨_, rfl⟩
        · rw [marshal_eval_otherscheme cwd t o hm hs0 hfile hc] at h
          cases h
          exact ⟨_, rfl⟩
      · rw [marshal_eval_badscheme cwd t o hm hs0 hc] at h
        cases h

/-! ## Grouping lemmas for the collision reporter -/

theorem marshaledGroups_ok (marshal : Uri → Except MarshalErr String)
    (mkey : Uri → String) :
    ∀ (l : List Uri) (acc : List (String × List Uri)),
      (∀ u ∈ l, marshal u = .ok (mkey u)) →
      marshaledGroups marshal l acc = .ok (groupsOfAux mkey l acc) := by
  intro l
  induction l with
  | nil => intro acc _; rfl
  | cons u rest ih =>
    intro acc h
    unfold marshaledGroups groupsOfAux
    rw [h u (by simp)]
    exact ih _ fun v hv => h v (by simp [hv])

theorem groupAdd_keys (acc : List (String × List Uri)) (k : String) (u : Uri) :
    (groupAdd acc k u).map Prod.fst =
      if k ∈ acc.map Prod.fst then acc.map Prod.fst
      else acc.map Prod.fst ++ [k] := by
  induction acc with
  | nil => simp [groupAdd]
  | cons hd tl ih =>
    obtain ⟨k0, g0⟩ := hd
    by_cases hk : k0 = k
    · subst hk
      simp [groupAdd]
    · have hne : ¬ k = k0 := fun hh => hk hh.symm
      by_cases hmem : k ∈ tl.map Prod.fst
      · simp [groupAdd, hk, hne, hmem, ih]
      · simp [groupAdd, hk, hne, hmem, ih]

theorem groupAdd_sum (acc : List (String × List Uri)) (k : String) (u : Uri) :
    ((groupAdd acc k u).map (fun kg => kg.2.length)).sum =
      (acc.map (fun kg => kg.2.length)).sum + 1 := by
  induction acc with
  | nil => simp [groupAdd]
  | cons hd tl ih =>
    obtain ⟨k0, g0⟩ := hd
    by_cases hk : k0 = k
    · subst hk
      simp [groupAdd]
      omega
    · simp only [groupAdd, if_neg hk, List.map_cons, List.sum_cons, ih]
      omega

theorem groupAdd_mem_of_mem_ne {acc : List (String × List Uri)} {k' : String}
    {g' : List Uri} (k : String) (u : Uri)
    (hmem : (k', g') ∈ acc) (hne : k' ≠ k) : (k', g') ∈ groupAdd acc k u := by
  induction acc with
  | nil => simp at hmem
  | cons hd tl ih =>
    obtain ⟨k0, g0⟩ := hd
    rcases List.mem_cons.mp hmem with hh | hh
    · cases hh
      simp only [groupAdd, if_neg (show ¬ k' = k from hne)]
      exact List.mem_cons_self _ _
    · by_cases hk : k0 = k
      · subst hk
        simp [groupAdd]
        right
        exact hh
      · simp only [groupAdd, if_neg hk]
        exact List.mem_cons_of_mem _ (ih hh)

theorem groupAdd_mem_update {acc : List (String × List Uri)} {k : String}
    {g0 : List Uri} (u : Uri)
    (hnd : (acc.map Prod.fst).Nodup) (hmem : (k, g0) ∈ acc) :
    (k, g0 ++ [u]) ∈ groupAdd acc k u := by
  induction acc with
  | nil => simp at hmem
  | cons hd tl ih =>
    obtain ⟨k0, g1⟩ := hd
    simp only [List.map_cons, List.nodup_cons] at hnd
    rcases List.mem_cons.mp hmem with hh | hh
    · cases hh
      simp [groupAdd]
    · by_cases hk : k0 = k
      · subst hk
        exact absurd (List.mem_map_of_mem Prod.fst hh) hnd.1
      · simp only [groupAdd, if_neg hk]
        exact List.mem_cons_of_mem _ (ih hnd.2 hh)

theorem groupAdd_new {acc : List (String × List Uri)} {k : String} (u : Uri)
    (hnot : k ∉ acc.map Prod.fst) : groupAdd acc k u = acc ++ [(k, [u])] := by
  induction acc with
  | nil => simp [groupAdd]
  | cons hd tl ih =>
    obtain ⟨k0, g0⟩ := hd
    simp only [List.map_cons, List.mem_cons] at hnot
    push_neg at hnot
    have hk : ¬ k0 = k := fun hh => hnot.1 hh.symm
    simp [groupAdd, hk, ih hnot.2]

theorem groupAdd_inv {acc : List (String × List Uri)} {k k' : String}
    {g' : List Uri} {u : Uri}
    (hnd : (acc.map Prod.fst).Nodup)
    (hmem : (k', g') ∈ groupAdd acc k u) :
    (k' ≠ k ∧ (k', g') ∈ acc) ∨
    (k' = k ∧ ((k ∉ acc.map Prod.fst ∧ g' = [u]) ∨
      (∃ g0, (k, g0) ∈ acc ∧ g' = g0 ++ [u]))) := by
  induction acc with
  | nil =>
    simp [groupAdd] at hmem
    exact Or.inr ⟨hmem.1, Or.inl ⟨by simp, hmem.2⟩⟩
  | cons hd tl ih =>
    obtain ⟨k0, g1⟩ := hd
    simp only [List.map_cons, List.nodup_cons] at hnd
    by_cases hk : k0 = k
    · subst hk
      simp only [groupAdd, if_pos rfl] at hmem
      rcases List.mem_cons.mp hmem with hh | hh
      · cases hh
        exact Or.inr ⟨rfl, Or.inr ⟨g1, by simp, rfl⟩⟩
      · by_cases hkk : k' = k0
        · subst hkk
          exact absurd (List.mem_map_of_mem Prod.fst hh) hnd.1
        · exact Or.inl ⟨hkk, List.mem_cons_of_mem _ hh⟩
    · simp only [groupAdd, if_neg hk] at hmem
      rcases List.mem_cons.mp hmem with hh | hh
      · cases hh
        exact Or.inl ⟨hk, by simp⟩
      · rcases ih hnd.2 hh with hh2 | hh2
        · exact Or.inl ⟨hh2.1, List.mem_cons_of_mem _ hh2.2⟩
        · obtain ⟨hkk, hrest⟩ := hh2
          rcases hrest with hh3 | hh3
          · refine Or.inr ⟨hkk, Or.inl ⟨?_, hh3.2⟩⟩
            simp only [List.map_cons, List.mem_cons]
            push_neg
            exact ⟨fun hh4 => hk hh4.symm, hh3.1⟩
          · obtain ⟨g0, hg0, hg'⟩ := hh3
            exact Or.inr ⟨hkk, Or.inr ⟨g0, List.mem_cons_of_mem _ hg0, hg'⟩⟩

theorem groupsOfAux_append (mkey : Uri → String) :
    ∀ (l1 l2 : List Uri) (acc : List (String × List Uri)),
      groupsOfAux mkey (l1 ++ l2) acc = groupsOfAux mkey l2 (groupsOfAux mkey l1 acc) := by
  intro l1
  induction l1 with
  | nil => intro l2 acc; rfl
  | cons u rest ih => intro l2 acc; exact ih l2 (groupAdd acc (mkey u) u)


theorem groupsOfAux_spec (mkey : Uri → String) (l : List Uri) :
    ((groupsOfAux mkey l []).map Prod.fst).Nodup ∧
    (∀ k g, ((k, g) ∈ groupsOfAux mkey l []) ↔
      (g = l.filter (fun v => mkey v == k) ∧ g ≠ [])) ∧
    ((groupsOfAux mkey l []).map (fun kg => kg.2.length)).sum = l.length := by
  induction l using List.reverseRecOn with
  | nil => simp [groupsOfAux]
  | append_singleton l' u ih =>
    obtain ⟨ihN, ihM, ihS⟩ := ih
    set G := groupsOfAux mkey l' [] with hG
    have hstep : groupsOfAux mkey (l' ++ [u]) [] = groupAdd G (mkey u) u := by
      rw [hG, groupsOfAux_append]
      rfl
    have hkeyiff : ∀ k : String, k ∈ G.map Prod.fst ↔
        l'.filter (fun v => mkey v == k) ≠ [] := by
      intro k
      constructor
      · intro hkin
        rcases List.mem_map.mp hkin with ⟨⟨k1, g1⟩, hmem1, hk1⟩
        obtain ⟨hg1eq, hg1ne⟩ := (ihM k1 g1).mp hmem1
        rw [← hk1]
        rw [hg1eq] at hg1ne
        exact hg1ne
      · intro hne
        exact List.mem_map.mpr
          ⟨(k, l'.filter (fun v => mkey v == k)), (ihM _ _).mpr ⟨rfl, hne⟩, rfl⟩
    refine ⟨?_, ?_, ?_⟩
    · rw [hstep, groupAdd_keys]
      by_cases hmem : mkey u ∈ G.map Prod.fst
      · simp [hmem, ihN]
      · simp [hmem, List.nodup_append, ihN]
    · intro k g
      rw [hstep]
      constructor
      · intro hmem
        rcases groupAdd_inv ihN hmem with ⟨hne, hmem2⟩ | ⟨hkeq, hrest⟩
        · obtain ⟨hg, hgne⟩ := (ihM _ _).mp hmem2
          refine ⟨?_, hgne⟩
          rw [List.filter_append]
          have hfu : [u].filter (fun v => mkey v == k) = [] := by
            simp [Ne.symm hne]
          rw [hfu, List.append_nil, hg]
        · subst hkeq
          rcases hrest with ⟨hnotin, hgu⟩ | ⟨g0, hg0mem, hgapp⟩
          · have hfil : l'.filter (fun v => mkey v == mkey u) = [] := by
              by_contra hne2
              exact hnotin ((hkeyiff _).mpr hne2)
            refine ⟨?_, by simp [hgu]⟩
            rw [hgu, List.filter_append, hfil]
            simp
          · obtain ⟨hg0, _⟩ := (ihM _ _).mp hg0mem
            refine ⟨?_, by simp [hgapp]⟩
            rw [hgapp, List.filter_append, hg0]
            simp
      · rintro ⟨hg, hgne⟩
        by_cases hkeq : k = mkey u
        · subst hkeq
          rw [List.filter_append] at hg
          simp only [List.filter_cons, List.filter_nil, beq_self_eq_true,
            if_true] at hg
          by_cases hfil : l'.filter (fun v => mkey v == mkey u) = []
          · have hnotin : mkey u ∉ G.map Prod.fst := by
              intro hcon
              exact ((hkeyiff _).mp hcon) hfil
            rw [groupAdd_new u hnotin]
            rw [hg, hfil]
            simp
          · rw [hg]
            exact groupAdd_mem_update u ihN ((ihM _ _).mpr ⟨rfl, hfil⟩)
        · rw [List.filter_append] at hg
          have hfu : [u].filter (fun v => mkey v == k) = [] := by
            simp [Ne.symm hkeq]
          rw [hfu, List.append_nil] at hg
          exact groupAdd_mem_of_mem_ne _ u ((ihM _ _).mpr ⟨hg, hgne⟩) hkeq
    · rw [hstep, groupAdd_sum, ihS]
      simp

/-! # Helper lemmas for the claim theorems -/

theorem length_le_sum_of_one_le {l : List Nat} (h : ∀ x ∈ l, 1 ≤ x) :
    l.length ≤ l.sum := by
  induction l with
  | nil => simp
  | cons a tl ih =>
    simp only [List.length_cons, List.sum_cons]
    have h1 := ih (fun x hx => h x (List.mem_cons_of_mem _ hx))
    have h2 := h a (List.mem_cons_self _ _)
    omega

theorem sum_eq_length_all_one {l : List Nat} (h1 : ∀ x ∈ l, 1 ≤ x)
    (h2 : l.sum = l.length) : ∀ x ∈ l, x = 1 := by
  induction l with
  | nil => simp
  | cons a tl ih =>
    intro x hx
    simp only [List.sum_cons, List.length_cons] at h2
    have ha := h1 a (List.mem_cons_self _ _)
    have htl : ∀ y ∈ tl, 1 ≤ y := fun y hy => h1 y (List.mem_cons_of_mem _ hy)
    have hge := length_le_sum_of_one_le htl
    rcases List.mem_cons.mp hx with hh | hh
    · omega
    · exact ih htl (by omega) x hh

theorem sum_of_all_one {l : List Nat} (h : ∀ x ∈ l, x = 1) : l.sum = l.length := by
  induction l with
  | nil => simp
  | cons a tl ih =>
    simp only [List.sum_cons, List.length_cons]
    rw [h a (List.mem_cons_self _ _), ih (fun x hx => h x (List.mem_cons_of_mem _ hx))]
    omega

/-! # Claim theorems -/

/-- C1 (amended): flattening the example document rooted at
`file:///specs/a.json` returns
`{definitions: {"lfile:a.json|..definitions..Pet": {type: object}}}` — the
marshaled key carries the `lfile:` masquerade prefix produced by
`_marshal_uri`, and the whole `definitions` section is replaced by the
bucket — and in the resolved spec the `Ref` node is rewritten to the pointer
`{$ref: "#/definitions/lfile:a.json|..definitions..Pet"}`. -/
theorem c1_flattened_example :
    exampleRun = .ok exampleExpected ∧
    (descend exampleCtx 20 exampleUrl Mappings.empty exampleDoc).map
        (fun p => defsLookup p.1 "Ref") =
      .ok (some (refOf "definitions" "lfile:a.json|..definitions..Pet")) :=
  ⟨by decide, by decide⟩

/-- C1 (counterexample to the claim's wording): the returned document holds
no definitions entry under the claimed key `a.json|definitions..Pet`, and no
`Ref` key survives at all (the `definitions` section is replaced wholesale
by the bucket, so the rewritten `Ref` node is not part of the output). -/
theorem c1_spec_key_absent :
    exampleRun = .ok exampleExpected ∧
    defsLookup exampleExpected "a.json|definitions..Pet" = none ∧
    exampleRun.map (fun d => defsLookup d "Ref") = .ok none :=
  ⟨by decide, by decide, by decide⟩

/-- C2 (amended): a mapping whose non-extension keys include an HTTP verb
but whose remaining keys are neither empty nor all `parameters` makes
`_determine_object_type` fall off the end of the function and return `None`
— not the Schema value the claim names — and the holder lookup then maps
that `None` to the `definitions` bucket, exactly as Schema would be. -/
theorem c2_unrecognized_keys_classification (kvs : List (String × Json))
    (h1 : ¬ ((olookup kvs "in").isSome = true ∧ (olookup kvs "name").isSome = true))
    (h2 : ((kvs.map Prod.fst).filter (fun k => ¬ pyStartsWith k "x-")).any
      (fun k => http_operations.contains k) = true)
    (h3 : ¬ (((kvs.map Prod.fst).filter (fun k => ¬ pyStartsWith k "x-")).filter
        (fun k => ¬ http_operations.contains k) = [] ∨
      (((kvs.map Prod.fst).filter (fun k => ¬ pyStartsWith k "x-")).filter
          (fun k => ¬ http_operations.contains k) ≠ [] ∧
        (((kvs.map Prod.fst).filter (fun k => ¬ pyStartsWith k "x-")).filter
          (fun k => ¬ http_operations.contains k)).all (fun k => k = "parameters")))) :
    _determine_object_type (.obj kvs) = none ∧
    typeHolderGet (_determine_object_type (.obj kvs)) = "definitions" := by
  have hmain : _determine_object_type (.obj kvs) = none := by
    simp only [_determine_object_type]
    rw [if_neg h1, if_pos h2, if_neg h3]
  refine ⟨hmain, ?_⟩
  rw [hmain]
  rfl

/-- C2 witness: the mapping `{get: {}, foo: {}}` satisfies the hypotheses
and is classified `none`, landing in `definitions`. -/
theorem c2_unrecognized_keys_classification_witness :
    _determine_object_type (.obj [("get", Json.obj []), ("foo", Json.obj [])]) = none ∧
    typeHolderGet (_determine_object_type
      (.obj [("get", Json.obj []), ("foo", Json.obj [])])) = "definitions" :=
  c2_unrecognized_keys_classification [("get", Json.obj []), ("foo", Json.obj [])]
    (by decide) (by decide) (by decide)

/-- C2 (counterexample to the claim's wording): `{get: {}, foo: {}}` has a
verb key and remaining keys `{foo}`, yet the classifier returns `none`, not
`some .schema` — the Python function falls off the end without a return. -/
theorem c2_fallthrough_returns_none :
    _determine_object_type c2Input = none ∧
    _determine_object_type c2Input ≠ some ObjectType.schema :=
  ⟨by decide, by decide⟩

/-- C5 (counterexample): the target `file://host` (local-file scheme, empty
path) with an origin does not satisfy the invalid-URI condition, yet the
marshaler fails — `os.path.relpath` raises on the empty path — refuting `for
every other input it returns a string without raising`. -/
theorem c5_relpath_error_input :
    ¬ InvalidTargetCond ⟨"file", "host", "", "", "", ""⟩ ∧
    «_marshal_uri» "/" ⟨"file", "host", "", "", "", ""⟩
      (some (urlparse exampleUrl)) = .error MarshalErr.noPathSpecified :=
  ⟨by unfold InvalidTargetCond; decide, by decide⟩

/-- C5 (amended): the marshaler fails with the invalid-URI error exactly on
the claim's condition (empty serialization, or a defaulted scheme outside
the whitelist); on the remaining inputs it succeeds if and only if the
relpath error condition (origin present, local-file scheme, empty target
path) does not hold. -/
theorem c5_marshal_error_characterization (cwd : String) (t : Uri) (o : Option Uri) :
    ((«_marshal_uri» cwd t o = .error MarshalErr.invalidTarget) ↔ InvalidTargetCond t) ∧
    ((«_marshal_uri» cwd t o).isOk = true ↔
      (¬ InvalidTargetCond t ∧ ¬ RelpathErrCond t o)) :=
  ⟨(marshal_error_trichotomy cwd t o).1, (marshal_error_trichotomy cwd t o).2.2⟩

/-- C6: every string the URI marshaler returns is free of raw `/` and `#`
characters — the ordered substitution table (`/` to `..`, then `#` to `|`)
is applied to the full serialized string on every success path. -/
theorem c6_marshal_output_safe (cwd : String) (t : Uri) (o : Option Uri) (res : String)
    (h : «_marshal_uri» cwd t o = .ok res) :
    Char.ofNat 47 ∉ res.data ∧ Char.ofNat 35 ∉ res.data := by
  obtain ⟨m, hm⟩ := marshal_ok_shape cwd t o res h
  rw [hm]
  exact applyReplacementPatterns_safe m

/-- C6 witness: `http://h/a` marshals to `http:....h..a`, which holds no
slash and no hash. -/
theorem c6_marshal_output_safe_witness :
    «_marshal_uri» "/" ⟨"http", "h", "/a", "", "", ""⟩ none = .ok "http:....h..a" ∧
    Char.ofNat 47 ∉ "http:....h..a".data ∧ Char.ofNat 35 ∉ "http:....h..a".data :=
  ⟨by decide,
   c6_marshal_output_safe "/" ⟨"http", "h", "/a", "", "", ""⟩ none
     "http:....h..a" (by decide)⟩

/-- C3: once a location has been resolved (entered in its bucket, the
pointer returned), any later reference to the same absolute location skips
recursion entirely — the placeholder/entry is found, the identical canonical
pointer `#/<bucket>/<marshaled key>` is returned, and the table is left
unchanged; buckets stay duplicate-free, so the bucket holds exactly one
entry for the location. -/
theorem c3_single_resolution (ctx : FlattenCtx) (fuel fuel' : Nat)
    (scope scope' : String) (km km' : Mappings) (v v' : Json)
    (r0 r0' : String) (dv : Json) (res : Json) (mk : String)
    (hrt : refTarget v = some r0)
    (hf : ctx.fetch (ctx.join scope r0) = some dv)
    (hnpi : _determine_object_type dv ≠ some ObjectType.pathItem)
    (hrun : descend ctx fuel scope km v = .ok (res, km'))
    (hmar : ctx.marshal (urlparse (ctx.join scope r0)) = .ok mk)
    (hrt' : refTarget v' = some r0')
    (hu' : ctx.join scope' r0' = ctx.join scope r0)
    (hnd : MappingsNodup km) :
    res = refOf (typeHolderGet (_determine_object_type dv)) mk ∧
    (blookup (km'.get (typeHolderGet (_determine_object_type dv)))
      (urlparse (ctx.join scope r0))).isSome = true ∧
    MappingsNodup km' ∧
    descend ctx (fuel' + 1) scope' km' v' =
      .ok (refOf (typeHolderGet (_determine_object_type dv)) mk, km') := by
  obtain ⟨mk2, hmar2, hres, hmem⟩ :=
    descend_ref_ok ctx fuel scope km v r0 dv res km' hrt hf hnpi hrun
  rw [hmar] at hmar2
  injection hmar2 with hmk
  subst hmk
  have hnd' : MappingsNodup km' :=
    (descend_stepOk ctx fuel scope km v res km' hrun).2 hnd
  have hf' : ctx.fetch (ctx.join scope' r0') = some dv := by rw [hu']; exact hf
  have hmem' : (blookup (km'.get (typeHolderGet (_determine_object_type dv)))
      (urlparse (ctx.join scope' r0'))).isSome = true := by rw [hu']; exact hmem
  have hmar' : ctx.marshal (urlparse (ctx.join scope' r0')) = .ok mk := by
    rw [hu']; exact hmar
  exact ⟨hres, hmem, hnd',
    descend_ref_skip ctx fuel' scope' km' v' r0' dv mk hrt' hf' hnpi hmem' hmar'⟩

/-- C3 witness: resolving the example reference once yields the canonical
pointer and the one-entry table `c3Km'`; a second encounter with that table
returns the identical pointer and leaves the table unchanged. -/
theorem c3_single_resolution_witness :
    refOf "definitions" "lfile:a.json|..definitions..Pet" =
      refOf (typeHolderGet (_determine_object_type examplePet))
        "lfile:a.json|..definitions..Pet" ∧
    (blookup (c3Km'.get (typeHolderGet (_determine_object_type examplePet)))
      (urlparse (exampleCtx.join exampleUrl "#/definitions/Pet"))).isSome = true ∧
    MappingsNodup c3Km' ∧
    descend exampleCtx 5 exampleUrl c3Km' exampleRefNode =
      .ok (refOf (typeHolderGet (_determine_object_type examplePet))
        "lfile:a.json|..definitions..Pet", c3Km') :=
  c3_single_resolution exampleCtx 5 4 exampleUrl exampleUrl Mappings.empty c3Km'
    exampleRefNode exampleRefNode "#/definitions/Pet" "#/definitions/Pet"
    examplePet (refOf "definitions" "lfile:a.json|..definitions..Pet")
    "lfile:a.json|..definitions..Pet"
    (by decide) (by decide) (by decide) (by decide) (by decide) (by decide) rfl
    (by unfold MappingsNodup; refine ⟨?_, ?_, ?_⟩ <;> decide)

/-- C4 (counterexample): a reference cycle through a path-item location is
not terminated by the memoization — path items bypass the table — so the
descent diverges for every fuel bound (the Python original recurses without
bound and dies with `RecursionError`). -/
theorem c4_pathitem_cycle_diverges :
    cycleCtx.fetch "A" = some cyclePathItemValue ∧
    refTarget cycleRefNode = some "A" ∧
    _determine_object_type cyclePathItemValue = some ObjectType.pathItem ∧
    NeverTerminatesOnPathItemCycle := by
  refine ⟨rfl, rfl, by decide, ?_⟩
  intro fuel
  exact (cycle_diverges_all fuel "A" Mappings.empty).1

/-- C4 (amended): when no fetchable location resolves to a path item, the
descent is bounded — fuel covering the node size plus the remaining
resolution weight of the location universe can never run out — and a cycle
closes by the memoization: a reference to a location already in its bucket
returns the pointer immediately with the table unchanged. -/
theorem c4_cycle_termination_amended (ctx : FlattenCtx) (U : List String)
    (fuel : Nat) (scope : String) (km : Mappings) (v : Json)
    (r0 : String) (dv : Json) (mk : String)
    (hU : ∀ u w, ctx.fetch u = some w → u ∈ U)
    (hNP : ∀ u w, ctx.fetch u = some w →
      _determine_object_type w ≠ some ObjectType.pathItem)
    (hbudget : sizeJson v + weightSum ctx U km ≤ fuel)
    (hrt : refTarget v = some r0)
    (hf : ctx.fetch (ctx.join scope r0) = some dv)
    (hmem : (blookup (km.get (typeHolderGet (_determine_object_type dv)))
      (urlparse (ctx.join scope r0))).isSome = true)
    (hmar : ctx.marshal (urlparse (ctx.join scope r0)) = .ok mk) :
    descend ctx fuel scope km v ≠ .error .outOfFuel ∧
    descend ctx (fuel + 1) scope km v =
      .ok (refOf (typeHolderGet (_determine_object_type dv)) mk, km) :=
  ⟨(descend_budget_all ctx U hU hNP fuel).1 scope km v hbudget,
   descend_ref_skip ctx fuel scope km v r0 dv mk hrt hf (hNP _ _ hf) hmem hmar⟩

/-- C4 witness: one schema location `u1` already holding its placeholder —
the shape of a closing cycle — cannot exhaust a budgeted fuel, and the next
encounter returns the pointer with the table unchanged. -/
theorem c4_cycle_termination_amended_witness :
    descend c4Ctx 10 "s" c4Km (Json.obj [("$ref", Json.str "u1")]) ≠
      .error FlattenErr.outOfFuel ∧
    descend c4Ctx 11 "s" c4Km (Json.obj [("$ref", Json.str "u1")]) =
      .ok (refOf "definitions" "K", c4Km) :=
  c4_cycle_termination_amended c4Ctx ["u1"] 10 "s" c4Km
    (Json.obj [("$ref", Json.str "u1")]) "u1" c4Val "K"
    (by intro u w h
        by_cases hu : u = "u1"
        · simp [hu]
        · have h2 : (if u = "u1" then some c4Val else none) = some w := h
          rw [if_neg hu] at h2
          exact Option.noConfusion h2)
    (by intro u w h
        by_cases hu : u = "u1"
        · subst hu
          have h2 : (if ("u1" : String) = "u1" then some c4Val else none) = some w := h
          rw [if_pos rfl] at h2
          injection h2 with h3
          subst h3
          decide
        · have h2 : (if u = "u1" then some c4Val else none) = some w := h
          rw [if_neg hu] at h2
          exact Option.noConfusion h2)
    (by decide) (by decide) (by decide) (by decide) (by decide)

/-- C7: a reference whose resolved value is classified as a path item is
answered by recursively descending the resolved value in place — the same
result as flattening it where it stands, with no pointer node — and, when
distinct locations have distinct parses, no bucket gains an entry for that
location. -/
theorem c7_pathitem_inlined (ctx : FlattenCtx) (fuel : Nat) (scope : String)
    (km : Mappings) (v : Json) (r0 : String) (dv : Json) (res : Json)
    (km' : Mappings) (b : String)
    (hrt : refTarget v = some r0)
    (hf : ctx.fetch (ctx.join scope r0) = some dv)
    (hpi : _determine_object_type dv = some ObjectType.pathItem)
    (hrun : descend ctx (fuel + 1) scope km v = .ok (res, km'))
    (hinj : ∀ u2 dv2, ctx.fetch u2 = some dv2 →
      urlparse u2 = urlparse (ctx.join scope r0) → u2 = ctx.join scope r0)
    (hold : (blookup (km.get b) (urlparse (ctx.join scope r0))).isSome = false) :
    descend ctx (fuel + 1) scope km v = descend ctx fuel (ctx.join scope r0) km dv ∧
    (blookup (km'.get b) (urlparse (ctx.join scope r0))).isSome = false := by
  refine ⟨descend_succ_ref_pathItem ctx fuel scope km v r0 dv hrt hf hpi, ?_⟩
  by_contra hnew
  rw [Bool.not_eq_false] at hnew
  rcases (descend_stepOk ctx (fuel + 1) scope km v res km' hrun).1 b _ hnew with h | h
  · rw [hold] at h
    exact Bool.noConfusion h
  · obtain ⟨u2, dv2, hp, hf2, hnpi2, hb⟩ := h
    have hu2 : u2 = ctx.join scope r0 := hinj u2 dv2 hf2 hp.symm
    rw [hu2, hf] at hf2
    injection hf2 with h3
    subst h3
    exact hnpi2 hpi

/-- C7 witness: the reference to the path-item location `p1` is inlined —
the step equals descending the fetched path item in place — and the
`definitions` bucket stays without an entry for `p1`. -/
theorem c7_pathitem_inlined_witness :
    descend c7Ctx 8 "s" Mappings.empty (Json.obj [("$ref", Json.str "p1")]) =
      descend c7Ctx 7 "p1" Mappings.empty c7PathItem ∧
    (blookup (Mappings.empty.get "definitions") (urlparse "p1")).isSome = false :=
  c7_pathitem_inlined c7Ctx 7 "s" Mappings.empty (Json.obj [("$ref", Json.str "p1")])
    "p1" c7PathItem c7PathItem Mappings.empty "definitions"
    (by decide) (by decide) (by decide) (by decide)
    (by intro u2 dv2 h hp
        by_cases hu : u2 = "p1"
        · exact hu
        · have h2 : (if u2 = "p1" then some c7PathItem else none) = some dv2 := h
          rw [if_neg hu] at h2
          exact Option.noConfusion h2)
    (by decide)

/-- C9: when every marshal call succeeds, the collision reporter never
aborts: it returns exactly one warning per marshaled-key group of two or
more locations (each group collecting, in order, every table key with that
marshaled representation; the message lists the canonical string forms
sorted lexicographically together with the shared key), the groups cover
the table with duplicate-free keys, and when the marshaled keys are
pairwise distinct it emits no warning at all.  The reporter takes the
table's keys by value and returns only messages, so the table is never
mutated. -/
theorem c9_collision_reporter (marshal : Uri → Except MarshalErr String)
    (mkey : Uri → String) (uris : List Uri)
    (hok : ∀ u ∈ uris, marshal u = .ok (mkey u)) :
    _warn_if_uri_clash_on_same_marshaled_representation marshal uris =
      .ok ((groupsOfAux mkey uris []).filterMap (fun g =>
        if 1 < g.2.length then some (clashMessage g.1 g.2) else none)) ∧
    (∀ k g, ((k, g) ∈ groupsOfAux mkey uris []) ↔
      (g = uris.filter (fun v => mkey v == k) ∧ g ≠ [])) ∧
    ((groupsOfAux mkey uris []).map Prod.fst).Nodup ∧
    ((uris.map mkey).Nodup →
      _warn_if_uri_clash_on_same_marshaled_representation marshal uris = .ok []) := by
  obtain ⟨hN, hM, hS⟩ := groupsOfAux_spec mkey uris
  have hg := marshaledGroups_ok marshal mkey uris [] hok
  have hrep : _warn_if_uri_clash_on_same_marshaled_representation marshal uris =
      (if (groupsOfAux mkey uris []).length ≠ uris.length then
        Except.ok ((groupsOfAux mkey uris []).filterMap (fun g =>
          if 1 < g.2.length then some (clashMessage g.1 g.2) else none))
      else .ok []) := by
    unfold _warn_if_uri_clash_on_same_marshaled_representation
    rw [hg]
  have hlen1 : ∀ x ∈ (groupsOfAux mkey uris []).map (fun kg => kg.2.length), 1 ≤ x := by
    intro x hx
    rcases List.mem_map.mp hx with ⟨⟨k, g⟩, hmem, hxx⟩
    have hne := ((hM k g).mp hmem).2
    rw [← hxx]
    exact List.length_pos.mpr hne
  refine ⟨?_, hM, hN, ?_⟩
  · rw [hrep]
    by_cases hlen : (groupsOfAux mkey uris []).length = uris.length
    · rw [if_neg (by simp [hlen])]
      have hall := sum_eq_length_all_one hlen1
        (by rw [hS, List.length_map, hlen])
      have hnil : (groupsOfAux mkey uris []).filterMap (fun g =>
          if 1 < g.2.length then some (clashMessage g.1 g.2) else none) = [] := by
        rw [List.filterMap_eq_nil_iff]
        intro g hgm
        rw [if_neg]
        have h1 := hall g.2.length (List.mem_map_of_mem _ hgm)
        omega
      rw [hnil]
    · rw [if_pos hlen]
  · intro hnd
    have hone : ∀ g ∈ groupsOfAux mkey uris [], g.2.length = 1 := by
      intro g hgm
      obtain ⟨k, gl⟩ := g
      show gl.length = 1
      obtain ⟨hfil, hne⟩ := (hM k gl).mp hgm
      have hc := List.nodup_iff_count_le_one.mp hnd k
      rw [List.count, List.countP_map, List.countP_eq_length_filter] at hc
      have hle : gl.length ≤ 1 := by
        rw [hfil]
        exact hc
      have hpos : 0 < gl.length := List.length_pos.mpr hne
      omega
    have hsum1 : ((groupsOfAux mkey uris []).map (fun kg => kg.2.length)).sum =
        (groupsOfAux mkey uris []).length := by
      rw [sum_of_all_one, List.length_map]
      intro x hx
      rcases List.mem_map.mp hx with ⟨g, hgm, hxx⟩
      rw [← hxx]
      exact hone g hgm
    have hleneq : (groupsOfAux mkey uris []).length = uris.length :=
      hsum1.symm.trans hS
    rw [hrep, if_neg (by simp [hleneq])]

/-- C9 witness: two locations sharing the marshaled key `K` produce exactly
the one warning listing both canonical forms and the shared key. -/
theorem c9_collision_reporter_witness :
    _warn_if_uri_clash_on_same_marshaled_representation (fun _ => .ok "K")
      [urlparse "http://h/a", urlparse "http://h/b"] =
      .ok (((groupsOfAux (fun _ => "K")
          [urlparse "http://h/a", urlparse "http://h/b"] []).filterMap (fun g =>
        if 1 < g.2.length then some (clashMessage g.1 g.2) else none))) ∧
    _warn_if_uri_clash_on_same_marshaled_representation (fun _ => .ok "K")
      [urlparse "http://h/a", urlparse "http://h/b"] =
      .ok ["http://h/a, http://h/b clashed to K"] :=
  ⟨(c9_collision_reporter (fun _ => .ok "K") (fun _ => "K")
      [urlparse "http://h/a", urlparse "http://h/b"] (fun u _ => rfl)).1,
   by decide⟩

/-- C10: a bucket that stayed empty is not attached — the final loop leaves
the document unchanged for it — so a run over a reference-free document
(whose table stays entirely empty) returns the input document with no new
top-level keys. -/
theorem c10_empty_buckets_not_attached (ctx : FlattenCtx) (fuel : Nat)
    (initScope : String) (spec_dict : Json)
    (hrf : refFree spec_dict = true) (hsz : sizeJson spec_dict ≤ fuel) :
    (∀ doc name, mergeOne ctx.marshal doc name [] = .ok doc) ∧
    flattened_spec ctx fuel initScope spec_dict = .ok spec_dict := by
  constructor
  · intro doc name
    rfl
  · have hd := (descend_refFree_all ctx fuel).1 initScope Mappings.empty spec_dict hrf hsz
    unfold flattened_spec flattened_spec_full
    rw [hd]
    rfl

/-- C10 witness: the reference-free document `{swagger: "2.0"}` flattens to
itself — every bucket stays empty and none is attached. -/
theorem c10_empty_buckets_not_attached_witness :
    mergeOne exampleCtx.marshal (Json.obj []) "definitions" [] = .ok (Json.obj []) ∧
    flattened_spec exampleCtx 5 exampleUrl (Json.obj [("swagger", Json.str "2.0")]) =
      .ok (Json.obj [("swagger", Json.str "2.0")]) :=
  ⟨(c10_empty_buckets_not_attached exampleCtx 5 exampleUrl
      (Json.obj [("swagger", Json.str "2.0")]) (by decide) (by decide)).1
      (Json.obj []) "definitions",
   (c10_empty_buckets_not_attached exampleCtx 5 exampleUrl
      (Json.obj [("swagger", Json.str "2.0")]) (by decide) (by decide)).2⟩

end SpecFlattening
